import Mathlib

/-!
Verification of the track-money statement-ingestion pipeline.

The definitions below are a shallow embedding of the TypeScript sources:
string-processing functions become Lean functions over `List Char` and
`String`, JS numbers (which never hold exotic values on the paths studied
here) become `Rat`, the JS value NaN is modelled by `Option.none`, and JS
`Date` values produced by `new Date(year, monthIndex, day)` become a civil
calendar date triple normalised with the proleptic Gregorian day-count
algorithm (the same normalisation ECMAScript MakeDay performs).
Each definition names the source function it embeds.
-/

set_option maxHeartbeats 4000000

namespace TrackMoney

/-- ASCII lower-casing of one character; models what JS
`String.prototype.toLowerCase` does on the ASCII inputs this code base
feeds it. -/
def lowerChar (c : Char) : Char :=
  if 'A' ≤ c ∧ c ≤ 'Z' then Char.ofNat (c.toNat + 32) else c

/-- Lower-case a whole string, character by character. -/
def lowerStr (s : String) : String :=
  String.mk (s.toList.map lowerChar)

/-- Tests whether the first list occurs at the head of the second. -/
def leadsWith : List Char → List Char → Bool
  | [], _ => true
  | _ :: _, [] => false
  | a :: as, b :: bs => a == b && leadsWith as bs

/-- Substring occurrence test on character lists; models JS
`String.prototype.includes hay.includes needle`. -/
def containsSub (needle : List Char) : List Char → Bool
  | [] => leadsWith needle []
  | c :: t => leadsWith needle (c :: t) || containsSub needle t

/-- Models JS `hay.includes needle` on strings. -/
def strIncludes (hay needle : String) : Bool :=
  containsSub needle.toList hay.toList

/-- Models JS `s.endsWith suf`. -/
def endsL (s suf : String) : Bool :=
  leadsWith suf.toList.reverse s.toList.reverse

/-- Keyword rule list of `categorizeTransaction` in
src/src/server/working-server.ts lines 200 to 245, in source order. -/
def wsRules : List (String × List String) :=
  [ ("subscriptions", ["netflix", "spotify", "apple music", "youtube premium", "disney+", "hulu", "amazon prime", "subscription", "claude.ai", "anthropic", "openai", "gpt", "notion", "slack", "zoom", "adobe", "microsoft", "office 365", "google one", "dropbox", "icloud"]),
    ("fitness", ["gym", "fitness", "yoga", "pilates", "crossfit", "planet fitness", "la fitness", "equinox", "24 hour fitness", "bintang badminton", "badminton", "sports club", "tennis", "swimming", "martial arts"]),
    ("education", ["udemy", "coursera", "khan academy", "skillshare", "pluralsight", "linkedin learning", "education", "tuition", "school", "university", "college", "textbook", "course", "training", "certification", "interviewing.io", "hellointerview"]),
    ("personal_care", ["salon", "spa", "barber", "haircut", "massage", "manicure", "pedicure", "facial", "beauty", "cosmetics", "skincare", "footlax", "kashish salon"]),
    ("bills", ["insurance", "phone bill", "internet", "cable", "wireless", "verizon", "at&t", "comcast", "xfinity", "mortgage", "rent", "hoa", "property tax"]),
    ("home_garden", ["home depot", "lowes", "ikea", "furniture", "appliances", "garden", "hardware", "home improvement", "decor"]),
    ("groceries", ["grocery", "supermarket", "walmart", "target", "costco", "safeway", "apni mandi", "mandi", "trader joe", "whole foods", "kroger", "new india bazar"]),
    ("restaurants", ["restaurant", "cafe", "coffee", "pizza", "burger", "starbucks", "mcdonald", "biryani", "indian", "namaste", "paradise", "mylapore", "jollibee", "doordash", "tst*", "sq *", "dd *", "uber eats", "grubhub", "postmates", "food delivery", "kitchen", "cuisine", "hungry bear", "chick-fil-a"]),
    ("gas", ["gas", "fuel", "shell", "exxon", "chevron", "bp", "valero", "electrify america"]),
    ("shopping", ["amazon", "ebay", "shop", "store", "retail", "mktpl", "marketplace", "mall", "clothing", "fashion", "shoes", "electronics", "flavcity"]),
    ("utilities", ["electric", "water", "utility", "power", "pge", "sdge", "gas company"]),
    ("transport", ["uber", "lyft", "taxi", "bus", "parking", "metro", "clipper", "bart", "caltrain", "bridge toll", "monterey parking"]),
    ("entertainment", ["movie", "theater", "cinema", "concert", "show", "ticket", "entertainment", "mystery spot", "amusement", "park"]),
    ("healthcare", ["pharmacy", "cvs", "walgreens", "doctor", "hospital", "medical", "dentist", "vision", "health"]),
    ("travel", ["hotel", "flight", "airline", "airbnb", "booking", "expedia", "travel", "vacation", "resort", "lodge", "ynp", "curry village", "degnans", "basecamp eatery"]) ]

/-- Tests whether a rule has at least one keyword occurring in the text;
models `rule.keywords.some(keyword => text.includes(keyword))`. -/
def ruleHits (text : String) (r : String × List String) : Bool :=
  r.2.any (fun k => strIncludes text k)

/-- First-match scan over a rule list, defaulting to the fixed id "other";
models the `for` loop at working-server.ts lines 247 to 253. -/
def firstRule (text : String) : List (String × List String) → String
  | [] => "other"
  | r :: rs => if ruleHits text r then r.1 else firstRule text rs

/-- The canonical text a categorizer works on:
`(description + ' ' + (merchantName || '')).toLowerCase()`. -/
def catText (description : String) (merchantName : Option String) : String :=
  lowerStr (description ++ " " ++ merchantName.getD "")

/-- Models `categorizeTransaction` of working-server.ts lines 197 to 254. -/
def categorizeTransaction (description : String) (merchantName : Option String) : String :=
  firstRule (catText description merchantName) wsRules

/-- Keyword rule list of `TransactionCategorizer.categorizeTransaction` in
src/src/server/categorizer.ts lines 30 to 76 (confidences are irrelevant to
the claims and omitted). -/
def tcRules : List (String × List String) :=
  [ ("groceries", ["grocery", "supermarket", "walmart", "target", "costco", "safeway", "kroger", "food", "market"]),
    ("gas", ["gas", "fuel", "shell", "exxon", "chevron", "bp", "76", "mobil", "station"]),
    ("restaurants", ["restaurant", "cafe", "coffee", "pizza", "burger", "taco", "subway", "mcdonald", "starbucks", "kfc", "dining"]),
    ("shopping", ["amazon", "ebay", "shop", "store", "retail", "mall", "outlet", "department"]),
    ("utilities", ["electric", "water", "gas company", "utility", "power", "energy", "pge", "edison"]),
    ("transport", ["uber", "lyft", "taxi", "bus", "metro", "transit", "parking", "toll"]),
    ("entertainment", ["netflix", "spotify", "hulu", "disney", "movie", "theater", "cinema", "concert", "game"]),
    ("healthcare", ["pharmacy", "cvs", "walgreens", "doctor", "hospital", "medical", "clinic", "health"]),
    ("travel", ["airline", "hotel", "booking", "expedia", "airbnb", "flight", "airport"]) ]

/-- First-match scan of `TransactionCategorizer`: a rule whose category id is
not among the loaded categories is skipped (categorizer.ts lines 79 to 91). -/
def tcFirst (cats : List String) (text : String) : List (String × List String) → String
  | [] => "other"
  | r :: rs => if ruleHits text r ∧ r.1 ∈ cats then r.1 else tcFirst cats text rs

/-- Models `TransactionCategorizer.categorizeTransaction` (categorizer.ts
lines 26 to 99), with the loaded category-id set made an explicit argument. -/
def tcCategorize (cats : List String) (description : String) (merchantName : Option String) : String :=
  tcFirst cats (catText description merchantName) tcRules

/-- The category ids seeded by the Database schema (categorizer.ts database
section, `INSERT OR IGNORE INTO categories`). -/
def seededCats : List String :=
  ["groceries", "restaurants", "gas", "shopping", "utilities", "entertainment", "healthcare", "transport", "travel", "other"]

theorem firstRule_eq_find (t : String) :
    ∀ l : List (String × List String),
      firstRule t l = (Option.map Prod.fst (l.find? (ruleHits t))).getD "other" := by
  intro l
  induction l with
  | nil => rfl
  | cons r rs ih =>
    cases hr : ruleHits t r with
    | true => simp [firstRule, hr, List.find?]
    | false => simp [firstRule, hr, List.find?, ih]

theorem firstRule_of_first (t : String) :
    ∀ (l : List (String × List String)) (i : ℕ) (hi : i < l.length),
      ruleHits t (l.get ⟨i, hi⟩) = true →
      (∀ j (hj : j < i), ruleHits t (l.get ⟨j, Nat.lt_trans hj hi⟩) = false) →
      firstRule t l = (l.get ⟨i, hi⟩).1 := by
  intro l
  induction l with
  | nil => intro i hi; exact absurd hi (Nat.not_lt_zero i)
  | cons r rs ih =>
    intro i hi hhit hearly
    cases i with
    | zero =>
      have hr : ruleHits t r = true := by simpa using hhit
      simp [firstRule, hr]
    | succ n =>
      have hr : ruleHits t r = false := by
        have := hearly 0 (Nat.succ_pos n)
        simpa using this
      have hn : n < rs.length := Nat.lt_of_succ_lt_succ hi
      have := ih n hn (by simpa using hhit)
        (fun j hj => by
          have := hearly (j + 1) (Nat.succ_lt_succ hj)
          simpa using this)
      simpa [firstRule, hr] using this

theorem tcFirst_eq_firstRule (cats : List String) (t : String) :
    ∀ l : List (String × List String), (∀ r ∈ l, r.1 ∈ cats) →
      tcFirst cats t l = firstRule t l := by
  intro l
  induction l with
  | nil => intro _; rfl
  | cons r rs ih =>
    intro hmem
    by_cases h : ruleHits t r
    · have : r.1 ∈ cats := hmem r (List.mem_cons_self r rs)
      simp [tcFirst, firstRule, h, this]
    · simp [tcFirst, firstRule, h, ih (fun x hx => hmem x (List.mem_cons_of_mem r hx))]

/-- C3: both categorizers lower-case `description + ' ' + merchantName` and
return the category id of the first rule, in the fixed source order, that has
at least one keyword occurring as a substring; later rules never influence
the result, and when no rule matches the fixed id "other" is returned. For
`TransactionCategorizer` this holds whenever every rule id is among the
loaded categories, as is the case for the seeded schema. -/
theorem categorize_first_match :
    (∀ d m, categorizeTransaction d m =
      (Option.map Prod.fst (wsRules.find? (ruleHits (catText d m)))).getD "other")
    ∧ (∀ d m (i : ℕ) (hi : i < wsRules.length),
        ruleHits (catText d m) (wsRules.get ⟨i, hi⟩) = true →
        (∀ j (hj : j < i), ruleHits (catText d m) (wsRules.get ⟨j, Nat.lt_trans hj hi⟩) = false) →
        categorizeTransaction d m = (wsRules.get ⟨i, hi⟩).1)
    ∧ (∀ cats d m, (∀ r ∈ tcRules, r.1 ∈ cats) →
        tcCategorize cats d m =
          (Option.map Prod.fst (tcRules.find? (ruleHits (catText d m)))).getD "other") := by
  refine ⟨fun d m => firstRule_eq_find _ _, fun d m i hi h1 h2 => firstRule_of_first _ _ i hi h1 h2, fun cats d m hmem => ?_⟩
  rw [tcCategorize, tcFirst_eq_firstRule cats _ _ hmem, firstRule_eq_find]

/-- Witness for C3: concrete runs of both categorizers, discharging every
hypothesis of the theorem at concrete inputs. -/
theorem categorize_first_match_witness :
    categorizeTransaction "qqq" none = "other"
    ∧ categorizeTransaction "NETFLIX.COM" (some "Netflix") = "subscriptions"
    ∧ tcCategorize seededCats "UBER TRIP" none = "transport" := by
  refine ⟨?_, ?_, ?_⟩
  · rw [categorize_first_match.1 "qqq" none]; decide
  · have h := categorize_first_match.2.1 "NETFLIX.COM" (some "Netflix") 0 (by decide)
      (by decide) (fun j hj => absurd hj (Nat.not_lt_zero j))
    simpa using h
  · have h := categorize_first_match.2.2 seededCats "UBER TRIP" none (by decide)
    rw [h]; decide

/-! Amount parsing. `parseAmount` (src/unnamed/part_001 lines 270 to 286 and
working-server.ts lines 291 to 303) strips dollar signs, commas and
whitespace, treats a value containing both parentheses as negative, and
otherwise defers to JS `parseFloat`. JS numbers on these paths are decimal
values, modelled as `Rat`; the JS value NaN is modelled as `Option.none`.
`parseFloat` reads the longest numeric head of the string (optional sign,
digits with an optional fraction, optional exponent); the `Infinity`
literal is not modelled, no claim exercises it. -/

/-- Numeric value of a digit string, as `parseInt`/`parseFloat` read it. -/
def digitsVal (l : List Char) : ℕ :=
  l.foldl (fun a c => 10 * a + (c.toNat - 48)) 0

/-- Whitespace class of the JS regexes and of `parseFloat` (ASCII part). -/
def isJsSpace (c : Char) : Bool :=
  c = ' ' || c = '\t' || c = '\n' || c = '\r' || c.toNat = 11 || c.toNat = 12

/-- Drops one leading sign character, as `parseFloat` does. -/
def dropSign (l : List Char) : List Char :=
  match l with
  | [] => []
  | c :: t => if c = '-' ∨ c = '+' then t else c :: t

/-- Tests for a leading minus sign. -/
def signNeg (l : List Char) : Bool :=
  match l with
  | [] => false
  | c :: _ => c = '-'

/-- Fraction digits after a leading decimal point, with the rest. -/
def fracPart (l : List Char) : List Char × List Char :=
  match l with
  | [] => ([], [])
  | c :: t => if c = '.' then (t.takeWhile Char.isDigit, t.dropWhile Char.isDigit) else ([], c :: t)

/-- Exponent value after the `e` marker: optional sign then digits; with no
digit the exponent part is not part of the numeric head and contributes 0. -/
def expoVal (l : List Char) : ℤ :=
  match l with
  | [] => 0
  | c :: t =>
    let ds := if c = '-' ∨ c = '+' then t.takeWhile Char.isDigit else (c :: t).takeWhile Char.isDigit
    if ds = [] then 0 else if c = '-' then -(digitsVal ds : ℤ) else (digitsVal ds : ℤ)

/-- Exponent of the numeric head, 0 when no well-formed exponent follows. -/
def expoPart (l : List Char) : ℤ :=
  match l with
  | [] => 0
  | c :: t => if c = 'e' ∨ c = 'E' then expoVal t else 0

/-- Fraction digit list of the numeric head. -/
def fracDigits (l : List Char) : List Char :=
  (fracPart ((dropSign l).dropWhile Char.isDigit)).1

/-- Exponent of the numeric head, read after the mantissa. -/
def headExpo (l : List Char) : ℤ :=
  expoPart (fracPart ((dropSign l).dropWhile Char.isDigit)).2

/-- Numerator of the numeric head value, before the sign: all mantissa
digits as one integer, scaled up by a nonnegative exponent. -/
def headNum (l : List Char) : ℕ :=
  (digitsVal ((dropSign l).takeWhile Char.isDigit) * 10 ^ (fracDigits l).length
    + digitsVal (fracDigits l)) * 10 ^ (headExpo l).toNat

/-- Denominator of the numeric head value: fraction scale, scaled up by a
negative exponent. -/
def headDen (l : List Char) : ℕ :=
  10 ^ (fracDigits l).length * 10 ^ (-(headExpo l)).toNat

/-- Signed rational value of the numeric head. -/
def headVal (l : List Char) : ℚ :=
  if signNeg l then -(mkRat (headNum l) (headDen l)) else mkRat (headNum l) (headDen l)

/-- Models JS `parseFloat`: value of the longest numeric head, `none` (NaN)
when the string has no numeric head. -/
def parseFloatQ (l : List Char) : Option ℚ :=
  if (dropSign l).takeWhile Char.isDigit = [] ∧ (fracPart ((dropSign l).dropWhile Char.isDigit)).1 = [] then
    none
  else
    some (headVal l)

/-- Character class removed by `replace(/[$,\s]/g, '')`. -/
def isMoneyJunk (c : Char) : Bool :=
  c = '$' || c = ',' || isJsSpace c

/-- Models `amountStr.replace(/[$,\s]/g, '')`. -/
def stripMoney (l : List Char) : List Char :=
  l.filter (fun c => !isMoneyJunk c)

/-- Parenthesis class removed by `replace(/[()]/g, '')`. -/
def isParen (c : Char) : Bool :=
  c = '(' || c = ')'

/-- Core of the finite restriction of `parseAmount`, acting on the
already-stripped character list; `none` covers NaN. -/
def parseAmountC (clean : List Char) : Option ℚ :=
  if clean.contains '(' && clean.contains ')' then
    match parseFloatQ (clean.filter (fun c => !isParen c)) with
    | none => none
    | some q => some (-|q|)
  else parseFloatQ clean

/-- Finite restriction of `parseAmount` of part_001 lines 270 to 286
(identical in working-server.ts lines 291 to 303) on a character list;
the full model with NaN and the infinities represented is `parseAmountNL`
below, and `parseAmountNL_agrees` shows this restriction faithful on every
input whose residue does not begin with the Infinity literal — in
particular on the regex-extracted amount groups of the PDF line parsers,
whose characters are digits, commas and dots only. -/
def parseAmountL (l : List Char) : Option ℚ :=
  parseAmountC (stripMoney l)

/-- Finite restriction of `parseAmount` on a string. -/
def parseAmount (s : String) : Option ℚ :=
  parseAmountL s.toList

/-- The residue `parseAmount` hands to `parseFloat`: the stripped list, with
parentheses removed when both are present. -/
def residueC (clean : List Char) : List Char :=
  if clean.contains '(' && clean.contains ')' then clean.filter (fun c => !isParen c) else clean

/-- Residue of a raw amount string. -/
def moneyResidue (l : List Char) : List Char :=
  residueC (stripMoney l)

/-- Head shape deciding whether `parseFloat` finds a numeric head: after an
optional sign, either a digit, or a decimal point followed by a digit. -/
def hnhCore (l : List Char) : Bool :=
  match l with
  | [] => false
  | [c] => c.isDigit
  | c :: d :: _ => c.isDigit || (c = '.' && d.isDigit)

/-- A list has a numeric head in the `parseFloat` sense. -/
def hasNumericHead (l : List Char) : Bool :=
  hnhCore (dropSign l)

/-- Spec-side notion of a valid number: the WHOLE string is a numeric
literal (optional sign, digits and at most one decimal point with digits on
at least one side, optional well-formed exponent). -/
def isNumericLit (l : List Char) : Bool :=
  let m := dropSign l
  let mant := m.takeWhile (fun c => !(c = 'e' || c = 'E'))
  let rest := m.dropWhile (fun c => !(c = 'e' || c = 'E'))
  let ip := mant.takeWhile Char.isDigit
  let fr := mant.dropWhile Char.isDigit
  let mOk :=
    match fr with
    | [] => !ip.isEmpty
    | c :: t => c = '.' && t.all Char.isDigit && (!ip.isEmpty || !t.isEmpty)
  let eOk :=
    match rest with
    | [] => true
    | _ :: t => !(dropSign t).isEmpty && (dropSign t).all Char.isDigit
  mOk && eOk

/-- The Infinity literal head accepted by JS `parseFloat` after an
optional sign. -/
def hasInfHead (l : List Char) : Bool :=
  leadsWith ("Infinity".toList) (dropSign l)

/-- A JS number as the amount pipeline can produce it: NaN, a signed
infinity, or a finite value. -/
inductive JsNum where
  | nan : JsNum
  | inf : Bool → JsNum
  | fin : ℚ → JsNum
deriving DecidableEq

/-- Full model of JS `parseFloat`: a signed Infinity literal head yields
the signed infinite value, otherwise the value of the longest finite
numeric head, otherwise NaN. -/
def parseFloatJS (l : List Char) : JsNum :=
  if hasInfHead l then JsNum.inf (signNeg l)
  else
    match parseFloatQ l with
    | none => JsNum.nan
    | some q => JsNum.fin q

/-- JS `Math.abs`. -/
def jsAbsN : JsNum → JsNum
  | JsNum.nan => JsNum.nan
  | JsNum.inf _ => JsNum.inf false
  | JsNum.fin q => JsNum.fin |q|

/-- JS unary minus. -/
def jsNegN : JsNum → JsNum
  | JsNum.nan => JsNum.nan
  | JsNum.inf b => JsNum.inf !b
  | JsNum.fin q => JsNum.fin (-q)

/-- JS `-Math.abs(x)`. -/
def jsNegAbs (v : JsNum) : JsNum :=
  jsNegN (jsAbsN v)

/-- JS `isNaN(x)`. -/
def jsIsNaN : JsNum → Bool
  | JsNum.nan => true
  | _ => false

/-- JS strict equality `x === 0`: false for NaN and the infinities. -/
def jsEqZero : JsNum → Bool
  | JsNum.fin q => q == 0
  | _ => false

/-- JS `x !== 0`: NaN and the infinities pass the test. -/
def jsNeqZero (v : JsNum) : Bool :=
  !jsEqZero v

/-- Full model of `parseAmount` (part_001 lines 270 to 286, identical in
working-server.ts lines 291 to 303) on a character list, with NaN and the
infinities represented: strip dollar signs, commas and whitespace; when
the residue contains both parentheses, parse the parenthesis-free residue
and return NaN if it is NaN, else minus its absolute value; otherwise
return the parsed residue. -/
def parseAmountNL (l : List Char) : JsNum :=
  if (stripMoney l).contains '(' && (stripMoney l).contains ')' then
    match parseFloatJS ((stripMoney l).filter (fun c => !isParen c)) with
    | JsNum.nan => JsNum.nan
    | v => jsNegAbs v
  else parseFloatJS (stripMoney l)

/-- Full model of `parseAmount` on a string. -/
def parseAmountN (s : String) : JsNum :=
  parseAmountNL s.toList

theorem hnhCore_iff (m : List Char) :
    (m.takeWhile Char.isDigit = [] ∧ (fracPart (m.dropWhile Char.isDigit)).1 = []) ↔
      hnhCore m = false := by
  cases m with
  | nil => simp [hnhCore, fracPart]
  | cons c t =>
    by_cases hc : c.isDigit
    · cases t <;> simp [List.takeWhile_cons, hc, hnhCore]
    · cases t with
      | nil =>
        by_cases hdot : c = '.'
        · subst hdot
          simp [List.takeWhile_cons, List.dropWhile_cons, hnhCore, fracPart]
        · simp [List.takeWhile_cons, List.dropWhile_cons, hc, hnhCore, fracPart, hdot]
      | cons d u =>
        by_cases hdot : c = '.'
        · subst hdot
          by_cases hd : d.isDigit
          · simp [List.takeWhile_cons, List.dropWhile_cons, hnhCore, fracPart, hd]
          · simp [List.takeWhile_cons, List.dropWhile_cons, hnhCore, fracPart, hd]
        · simp [List.takeWhile_cons, List.dropWhile_cons, hc, hnhCore, fracPart, hdot]

theorem parseFloatQ_none_iff (l : List Char) :
    parseFloatQ l = none ↔ hasNumericHead l = false := by
  unfold parseFloatQ hasNumericHead
  by_cases h : ((dropSign l).takeWhile Char.isDigit = [] ∧
      (fracPart ((dropSign l).dropWhile Char.isDigit)).1 = [])
  · rw [if_pos h]
    simpa using (hnhCore_iff (dropSign l)).mp h
  · rw [if_neg h]
    constructor
    · intro hs; exact absurd hs (by simp)
    · intro hf; exact absurd ((hnhCore_iff (dropSign l)).mpr hf) h

theorem parseFloatQ_some (l : List Char) (h : hasNumericHead l = true) :
    parseFloatQ l = some (headVal l) := by
  unfold parseFloatQ
  rw [if_neg]
  intro hcond
  have := (hnhCore_iff (dropSign l)).mp hcond
  rw [hasNumericHead] at h
  rw [this] at h
  exact Bool.false_ne_true h

theorem parseFloatJS_nan_iff (l : List Char) :
    parseFloatJS l = JsNum.nan ↔ (hasNumericHead l = false ∧ hasInfHead l = false) := by
  unfold parseFloatJS
  cases hi : hasInfHead l with
  | true => simp
  | false =>
    simp only [Bool.false_eq_true, if_false]
    cases hp : parseFloatQ l with
    | none =>
      constructor
      · intro _; exact ⟨(parseFloatQ_none_iff l).mp hp, trivial⟩
      · intro _; rfl
    | some q =>
      constructor
      · intro hc; exact JsNum.noConfusion hc
      · rintro ⟨hf, -⟩
        have h2 := (parseFloatQ_none_iff l).mpr hf
        rw [hp] at h2
        exact Option.noConfusion h2

theorem parseAmountNL_agrees (l : List Char)
    (hinf : hasInfHead (moneyResidue l) = false) :
    parseAmountNL l =
      (match parseAmountL l with
       | none => JsNum.nan
       | some q => JsNum.fin q) := by
  unfold moneyResidue residueC at hinf
  unfold parseAmountNL parseAmountL parseAmountC
  by_cases h : ((stripMoney l).contains '(' && (stripMoney l).contains ')') = true
  · rw [if_pos h] at hinf
    rw [if_pos h, if_pos h]
    unfold parseFloatJS
    rw [if_neg (by rw [hinf]; exact Bool.false_ne_true)]
    cases hp : parseFloatQ ((stripMoney l).filter (fun c => !isParen c)) with
    | none => rfl
    | some q => rfl
  · rw [if_neg h] at hinf
    rw [if_neg h, if_neg h]
    unfold parseFloatJS
    rw [if_neg (by rw [hinf]; exact Bool.false_ne_true)]

theorem parseFloatQ_nonneg (l : List Char) (q : ℚ) (h : parseFloatQ l = some q)
    (hs : signNeg l = false) : 0 ≤ q := by
  unfold parseFloatQ at h
  split at h
  · exact absurd h (by simp)
  · have hq : q = headVal l := (Option.some.injEq _ _).mp h.symm
    rw [hq, headVal, hs]
    simp only [Bool.false_eq_true, if_false]
    exact Rat.mkRat_nonneg (Int.natCast_nonneg _) _

theorem headVal_eval (l : List Char) (n d : ℕ) (hs : signNeg l = false)
    (hn : headNum l = n) (hd : headDen l = d) : headVal l = (n : ℚ) / (d : ℚ) := by
  rw [headVal, hs, hn, hd]
  simp [Rat.mkRat_eq_div]

/-- Evaluation helper: value of `parseAmount` in the no-parentheses case. -/
theorem parseAmount_eval (s : String) (n d : ℕ)
    (hnp : ((stripMoney s.toList).contains '(' && (stripMoney s.toList).contains ')') = false)
    (hhead : hasNumericHead (stripMoney s.toList) = true)
    (hsn : signNeg (stripMoney s.toList) = false)
    (hn : headNum (stripMoney s.toList) = n)
    (hd : headDen (stripMoney s.toList) = d) :
    parseAmount s = some ((n : ℚ) / (d : ℚ)) := by
  rw [parseAmount, parseAmountL, parseAmountC, if_neg (by rw [hnp]; exact Bool.false_ne_true),
    parseFloatQ_some _ hhead, headVal_eval _ n d hsn hn hd]

theorem stripMoney_insert (l1 l2 : List Char) (c : Char) (h : isMoneyJunk c = true) :
    stripMoney (l1 ++ c :: l2) = stripMoney (l1 ++ l2) := by
  simp [stripMoney, List.filter_append, List.filter_cons, h]

/-- C4 counterexample: the stripped residue of "12.34abc" is not a valid
number, yet parseAmount does not fail: JS parseFloat reads the longest
numeric head and yields the finite value 12.34. -/
theorem parseAmount_junk_counterexample :
    isNumericLit (stripMoney ("12.34abc".toList)) = false
    ∧ parseAmountN "12.34abc" = JsNum.fin (1234 / 100 : ℚ) := by
  refine ⟨by decide, ?_⟩
  have h : parseAmountN "12.34abc" = JsNum.fin (mkRat 1234 100) := by decide
  rw [h, show (mkRat 1234 100 : ℚ) = 1234 / 100 from by rw [Rat.mkRat_eq_div]; norm_num]

/-- C4 amended: parseAmount is insensitive to dollar signs, commas and
whitespace anywhere in the input; a residue containing both parentheses
parses to minus the absolute value of the enclosed number (never
positive), an infinite enclosed value giving negative infinity; and
parseAmount returns NaN exactly when the residue handed to parseFloat has
neither a finite numeric head nor an Infinity literal head — a
non-numeric SUFFIX after a numeric head does not cause failure, and an
Infinity residue does not fail but yields an infinite amount. -/
theorem parseAmount_spec :
    (∀ l1 l2 c, isMoneyJunk c = true →
      parseAmountNL (l1 ++ c :: l2) = parseAmountNL (l1 ++ l2))
    ∧ (∀ l q, (stripMoney l).contains '(' = true → (stripMoney l).contains ')' = true →
        parseFloatJS ((stripMoney l).filter (fun c => !isParen c)) = JsNum.fin q →
        parseAmountNL l = JsNum.fin (-|q|) ∧ -|q| ≤ 0)
    ∧ (∀ l s, (stripMoney l).contains '(' = true → (stripMoney l).contains ')' = true →
        parseFloatJS ((stripMoney l).filter (fun c => !isParen c)) = JsNum.inf s →
        parseAmountNL l = JsNum.inf true)
    ∧ (∀ l, parseAmountNL l = JsNum.nan ↔
        (hasNumericHead (moneyResidue l) = false ∧ hasInfHead (moneyResidue l) = false)) := by
  refine ⟨?_, ?_, ?_, ?_⟩
  · intro l1 l2 c h
    unfold parseAmountNL
    rw [stripMoney_insert l1 l2 c h]
  · intro l q hpo hpc hq
    unfold parseAmountNL
    rw [hpo, hpc]
    simp only [Bool.and_self, if_pos]
    rw [hq]
    exact ⟨rfl, neg_nonpos.mpr (abs_nonneg q)⟩
  · intro l s hpo hpc hq
    unfold parseAmountNL
    rw [hpo, hpc]
    simp only [Bool.and_self, if_pos]
    rw [hq]
    rfl
  · intro l
    unfold parseAmountNL moneyResidue residueC
    by_cases h : (stripMoney l).contains '(' && (stripMoney l).contains ')'
    · rw [if_pos h, if_pos h]
      cases hp : parseFloatJS ((stripMoney l).filter (fun c => !isParen c)) with
      | nan =>
        constructor
        · intro _; exact (parseFloatJS_nan_iff _).mp hp
        · intro _; rfl
      | inf s =>
        constructor
        · intro hc; exact JsNum.noConfusion hc
        · rintro ⟨h1, h2⟩
          have h3 := (parseFloatJS_nan_iff _).mpr ⟨h1, h2⟩
          rw [hp] at h3
          exact JsNum.noConfusion h3
      | fin q =>
        constructor
        · intro hc; exact JsNum.noConfusion hc
        · rintro ⟨h1, h2⟩
          have h3 := (parseFloatJS_nan_iff _).mpr ⟨h1, h2⟩
          rw [hp] at h3
          exact JsNum.noConfusion h3
    · rw [if_neg h, if_neg h]
      exact parseFloatJS_nan_iff _

/-- Witness for C4 amended: every conjunct applied at a concrete input,
including an Infinity amount. -/
theorem parseAmount_spec_witness :
    parseAmountNL ("12".toList ++ '$' :: "34".toList) = parseAmountNL ("12".toList ++ "34".toList)
    ∧ parseAmountNL ("(12.34)".toList) = JsNum.fin (-(1234 / 100 : ℚ))
    ∧ parseAmountNL ("(Infinity)".toList) = JsNum.inf true
    ∧ parseAmountNL ("abc".toList) = JsNum.nan := by
  refine ⟨parseAmount_spec.1 _ _ '$' (by decide), ?_, ?_, ?_⟩
  · have hq : parseFloatJS ((stripMoney ("(12.34)".toList)).filter (fun c => !isParen c)) =
        JsNum.fin (mkRat 1234 100) := by decide
    have h := (parseAmount_spec.2.1 ("(12.34)".toList) (mkRat 1234 100)
      (by decide) (by decide) hq).1
    rw [h, show (mkRat 1234 100 : ℚ) = 1234 / 100 from by rw [Rat.mkRat_eq_div]; norm_num,
      abs_of_nonneg (by norm_num : (0 : ℚ) ≤ 1234 / 100)]
  · have hq : parseFloatJS ((stripMoney ("(Infinity)".toList)).filter (fun c => !isParen c)) =
        JsNum.inf false := by decide
    exact parseAmount_spec.2.2.1 ("(Infinity)".toList) false (by decide) (by decide) hq
  · exact (parseAmount_spec.2.2.2 ("abc".toList)).mpr (by decide)

/-! Date parsing. `parseDate` (src/unnamed/part_001 lines 232 to 268) strips
every character that is not a digit, slash or hyphen, tries three anchored
formats in order, building the result with `new Date(year, monthIndex, day)`
and keeping it only when `isValidDate` holds (part_001 lines 306 to 308),
then falls back to `new Date(dateStr)` on the original string, again gated
by `isValidDate`. JS `Date` values are modelled as civil calendar triples;
`new Date(y, mi, d)` is modelled by `jsNewDate`, which performs exactly the
ECMAScript MakeDay normalisation (month floor-divided into the year, day
overflow rolled through the day count) plus the constructor rule mapping
years 0 to 99 to 1900 + y. Time of day and time zones play no role: every
date built here is a plain midnight date, so value equality is calendar-day
equality. The implementation-defined fallback `new Date(string)` is an
explicit function argument `fb`; `isoFallback` models the one string format
the ECMAScript standard specifies, the ISO `YYYY-MM-DD` form. -/

/-- A JS `Date` reduced to its civil calendar day. -/
structure JsDate where
  year : ℤ
  month : ℤ
  day : ℤ
deriving DecidableEq

/-- Day count of a civil date (days since 1970-01-01, proleptic Gregorian,
the standard era-based conversion also used by ECMAScript MakeDay). -/
def daysFromCivil (y m d : ℤ) : ℤ :=
  let y2 := y - (if m ≤ 2 then 1 else 0)
  let era := Int.fdiv y2 400
  let yoe := y2 - era * 400
  let mp := Int.fmod (m + 9) 12
  let doy := Int.fdiv (153 * mp + 2) 5 + d - 1
  let doe := yoe * 365 + Int.fdiv yoe 4 - Int.fdiv yoe 100 + doy
  era * 146097 + doe - 719468

/-- Civil date of a day count, inverse direction of `daysFromCivil`. -/
def civilFromDays (z0 : ℤ) : JsDate :=
  let z := z0 + 719468
  let era := Int.fdiv z 146097
  let doe := z - era * 146097
  let yoe := Int.fdiv (doe - Int.fdiv doe 1460 + Int.fdiv doe 36524 - Int.fdiv doe 146096) 365
  let y := yoe + era * 400
  let doy := doe - (365 * yoe + Int.fdiv yoe 4 - Int.fdiv yoe 100)
  let mp := Int.fdiv (5 * doy + 2) 153
  let d := doy - Int.fdiv (153 * mp + 2) 5 + 1
  let m := mp + (if mp < 10 then 3 else -9)
  ⟨(if m ≤ 2 then y + 1 else y), m, d⟩

/-- Models `new Date(y, monthIndex, day)`: the two-digit-year constructor
rule, then MakeDay month and day normalisation. -/
def jsNewDate (y0 mi d : ℤ) : JsDate :=
  let y := if 0 ≤ y0 ∧ y0 ≤ 99 then y0 + 1900 else y0
  let ym := y + Int.fdiv mi 12
  let mm := Int.fmod mi 12
  civilFromDays (daysFromCivil ym (mm + 1) 1 + (d - 1))

/-- Models `isValidDate` of part_001 lines 306 to 308: the year must be
STRICTLY between 1900 and 2100 (the NaN check is covered by `Option`). -/
def isValidDate (dt : JsDate) : Bool :=
  1900 < dt.year && dt.year < 2100

/-- Gregorian leap-year test. -/
def isLeap (y : ℤ) : Bool :=
  (y % 4 == 0 && !(y % 100 == 0)) || y % 400 == 0

/-- Length of a month in the Gregorian calendar. -/
def daysInMonth (y m : ℤ) : ℤ :=
  if m = 2 then (if isLeap y then 29 else 28)
  else if m = 4 ∨ m = 6 ∨ m = 9 ∨ m = 11 then 30 else 31

/-- Continues a format match after a required separator character. -/
def sepThen {α : Type} (sep : Char) (r : List Char) (k : List Char → Option α) : Option α :=
  match r with
  | c :: t => if c = sep then k t else none
  | [] => none

theorem sepThen_cons {α : Type} (sep c : Char) (t : List Char) (k : List Char → Option α) :
    sepThen sep (c :: t) k = if c = sep then k t else none := rfl

theorem sepThen_nil {α : Type} (sep : Char) (k : List Char → Option α) :
    sepThen sep [] k = none := rfl

/-- Models the anchored regex `(\d{1,2})\/(\d{1,2})\/(\d{4})` with the three
groups read by `parseInt`: month, day, four-digit year. -/
def matchMDY (l : List Char) : Option (ℕ × ℕ × ℕ) :=
  if 1 ≤ (l.takeWhile Char.isDigit).length ∧ (l.takeWhile Char.isDigit).length ≤ 2 then
    sepThen '/' (l.dropWhile Char.isDigit) (fun r2 =>
      if 1 ≤ (r2.takeWhile Char.isDigit).length ∧ (r2.takeWhile Char.isDigit).length ≤ 2 then
        sepThen '/' (r2.dropWhile Char.isDigit) (fun r4 =>
          if (r4.takeWhile Char.isDigit).length = 4 ∧ r4.dropWhile Char.isDigit = [] then
            some (digitsVal (l.takeWhile Char.isDigit),
              digitsVal (r2.takeWhile Char.isDigit),
              digitsVal (r4.takeWhile Char.isDigit))
          else none)
      else none)
  else none

/-- Models the anchored regex `(\d{4})-(\d{2})-(\d{2})`: year, month, day. -/
def matchYMD (l : List Char) : Option (ℕ × ℕ × ℕ) :=
  if (l.takeWhile Char.isDigit).length = 4 then
    sepThen '-' (l.dropWhile Char.isDigit) (fun r2 =>
      if (r2.takeWhile Char.isDigit).length = 2 then
        sepThen '-' (r2.dropWhile Char.isDigit) (fun r4 =>
          if (r4.takeWhile Char.isDigit).length = 2 ∧ r4.dropWhile Char.isDigit = [] then
            some (digitsVal (l.takeWhile Char.isDigit),
              digitsVal (r2.takeWhile Char.isDigit),
              digitsVal (r4.takeWhile Char.isDigit))
          else none)
      else none)
  else none

/-- Models the anchored regex `(\d{1,2})\/(\d{1,2})`: month, day. -/
def matchMD (l : List Char) : Option (ℕ × ℕ) :=
  if 1 ≤ (l.takeWhile Char.isDigit).length ∧ (l.takeWhile Char.isDigit).length ≤ 2 then
    sepThen '/' (l.dropWhile Char.isDigit) (fun r2 =>
      if (1 ≤ (r2.takeWhile Char.isDigit).length ∧ (r2.takeWhile Char.isDigit).length ≤ 2)
          ∧ r2.dropWhile Char.isDigit = [] then
        some (digitsVal (l.takeWhile Char.isDigit), digitsVal (r2.takeWhile Char.isDigit))
      else none)
  else none

/-- Models `dateStr.replace(/[^\d\/\-]/g, '')`. -/
def cleanChars (s : String) : List Char :=
  s.toList.filter (fun c => c.isDigit || c = '/' || c = '-')

/-- Result of one loop iteration of `parseDate`: keep the constructed date
only when `isValidDate` holds, otherwise continue. -/
def fmtResult (dt : JsDate) : Option JsDate :=
  if isValidDate dt then some dt else none

/-- First-defined-result combinator, the shape of a loop whose iterations
either return or continue. -/
def orO {α : Type} (a b : Option α) : Option α :=
  match a with
  | some x => some x
  | none => b

/-- Iteration of the format loop for `MM/DD/YYYY`. -/
def stepMDY (clean : List Char) : Option JsDate :=
  match matchMDY clean with
  | some (m, d, y) => fmtResult (jsNewDate (y : ℤ) ((m : ℤ) - 1) (d : ℤ))
  | none => none

/-- Iteration of the format loop for `YYYY-MM-DD`. -/
def stepYMD (clean : List Char) : Option JsDate :=
  match matchYMD clean with
  | some (y, m, d) => fmtResult (jsNewDate (y : ℤ) ((m : ℤ) - 1) (d : ℤ))
  | none => none

/-- Iteration of the format loop for `MM/DD` with the current year `cy`. -/
def stepMD (cy : ℤ) (clean : List Char) : Option JsDate :=
  match matchMD clean with
  | some (m, d) => fmtResult (jsNewDate cy ((m : ℤ) - 1) (d : ℤ))
  | none => none

/-- The format loop of `parseDate`, in source order; `cy` is the runtime
value `new Date().getFullYear()` used by the `MM/DD` format. -/
def tryFormats (cy : ℤ) (clean : List Char) : Option JsDate :=
  orO (stepMDY clean) (orO (stepYMD clean) (stepMD cy clean))

/-- Models `parseDate` of part_001 lines 232 to 268: strip, try the three
formats in order, then run the generic fallback `fb` (modelling
`new Date(dateStr)`) on the ORIGINAL string, gated by `isValidDate`. -/
def tmParseDate (cy : ℤ) (fb : String → Option JsDate) (s : String) : Option JsDate :=
  match tryFormats cy (cleanChars s) with
  | some dt => some dt
  | none =>
    match fb s with
    | some dt => if isValidDate dt then some dt else none
    | none => none

/-- Models the ECMAScript-specified part of `new Date(string)`: the ISO
`YYYY-MM-DD` date-only form with in-range fields; every other input is
implementation-defined and modelled as unparseable. -/
def isoFallback (s : String) : Option JsDate :=
  match matchYMD s.toList with
  | some (y, m, d) =>
    if (1 ≤ (m : ℤ) ∧ (m : ℤ) ≤ 12) ∧ (1 ≤ (d : ℤ) ∧ (d : ℤ) ≤ daysInMonth (y : ℤ) (m : ℤ)) then
      some ⟨(y : ℤ), (m : ℤ), (d : ℤ)⟩
    else none
  | none => none

/-- Models `parseDate` of working-server.ts lines 257 to 288: strip, try
the same three formats in the same order, but with NO `isValidDate` gate
anywhere — each format match RETURNS its `new Date(...)` unconditionally —
then the generic fallback `fb` on the original string, gated only by the
NaN check that `Option` already covers. -/
def wsParseDate (cy : ℤ) (fb : String → Option JsDate) (s : String) : Option JsDate :=
  match matchMDY (cleanChars s) with
  | some (m, d, y) => some (jsNewDate (y : ℤ) ((m : ℤ) - 1) (d : ℤ))
  | none =>
    match matchYMD (cleanChars s) with
    | some (y, m, d) => some (jsNewDate (y : ℤ) ((m : ℤ) - 1) (d : ℤ))
    | none =>
      match matchMD (cleanChars s) with
      | some (m, d) => some (jsNewDate cy ((m : ℤ) - 1) (d : ℤ))
      | none => fb s

theorem orO_eq_some {α : Type} (a b : Option α) (x : α) (h : orO a b = some x) :
    a = some x ∨ (a = none ∧ b = some x) := by
  cases a with
  | some y => left; simpa [orO] using h
  | none => right; exact ⟨rfl, by simpa [orO] using h⟩

theorem fmtResult_eq_some (dt x : JsDate) (h : fmtResult dt = some x) :
    x = dt ∧ isValidDate dt = true := by
  unfold fmtResult at h
  split at h
  · cases h; exact ⟨rfl, by assumption⟩
  · exact absurd h (by simp)

theorem stepMDY_valid (c : List Char) (dt : JsDate) (h : stepMDY c = some dt) :
    isValidDate dt = true := by
  unfold stepMDY at h
  split at h
  · obtain ⟨rfl, hv⟩ := fmtResult_eq_some _ _ h
    exact hv
  · exact absurd h (by simp)

theorem stepYMD_valid (c : List Char) (dt : JsDate) (h : stepYMD c = some dt) :
    isValidDate dt = true := by
  unfold stepYMD at h
  split at h
  · obtain ⟨rfl, hv⟩ := fmtResult_eq_some _ _ h
    exact hv
  · exact absurd h (by simp)

theorem stepMD_valid (cy : ℤ) (c : List Char) (dt : JsDate) (h : stepMD cy c = some dt) :
    isValidDate dt = true := by
  unfold stepMD at h
  split at h
  · obtain ⟨rfl, hv⟩ := fmtResult_eq_some _ _ h
    exact hv
  · exact absurd h (by simp)

theorem tryFormats_valid (cy : ℤ) (c : List Char) (dt : JsDate)
    (h : tryFormats cy c = some dt) : isValidDate dt = true := by
  unfold tryFormats at h
  rcases orO_eq_some _ _ _ h with h1 | ⟨-, h1⟩
  · exact stepMDY_valid c dt h1
  · rcases orO_eq_some _ _ _ h1 with h2 | ⟨-, h2⟩
    · exact stepYMD_valid c dt h2
    · exact stepMD_valid cy c dt h2

theorem tryFormats_mdy (cy : ℤ) (c : List Char) (m d y : ℕ)
    (hm : matchMDY c = some (m, d, y))
    (hv : isValidDate (jsNewDate (y : ℤ) ((m : ℤ) - 1) (d : ℤ)) = true) :
    tryFormats cy c = some (jsNewDate (y : ℤ) ((m : ℤ) - 1) (d : ℤ)) := by
  unfold tryFormats stepMDY
  rw [hm]
  show orO (fmtResult _) _ = _
  rw [fmtResult, if_pos hv]
  rfl

theorem tmParseDate_of_tryFormats (cy : ℤ) (fb : String → Option JsDate) (s : String)
    (dt : JsDate) (h : tryFormats cy (cleanChars s) = some dt) :
    tmParseDate cy fb s = some dt := by
  unfold tmParseDate
  rw [h]

theorem tmParseDate_valid (cy : ℤ) (fb : String → Option JsDate) (s : String) (dt : JsDate)
    (h : tmParseDate cy fb s = some dt) : isValidDate dt = true := by
  unfold tmParseDate at h
  split at h
  case h_1 heq => cases h; exact tryFormats_valid _ _ _ heq
  case h_2 =>
    split at h
    case h_1 =>
      split at h
      · cases h; assumption
      · exact absurd h (by simp)
    case h_2 => exact absurd h (by simp)

theorem tmParseDate_none_iff (cy : ℤ) (fb : String → Option JsDate) (s : String) :
    tmParseDate cy fb s = none ↔
      (tryFormats cy (cleanChars s) = none ∧
        ∀ dt, fb s = some dt → isValidDate dt = false) := by
  unfold tmParseDate
  cases htf : tryFormats cy (cleanChars s) with
  | some dt => simp
  | none =>
    cases hfb : fb s with
    | none => simp
    | some dt =>
      cases hv : isValidDate dt with
      | true => simp [hv]
      | false => simp [hv]

theorem wsParseDate_mdy (cy : ℤ) (fb : String → Option JsDate) (s : String) (m d y : ℕ)
    (hm : matchMDY (cleanChars s) = some (m, d, y)) :
    wsParseDate cy fb s = some (jsNewDate (y : ℤ) ((m : ℤ) - 1) (d : ℤ)) := by
  unfold wsParseDate
  rw [hm]

theorem wsParseDate_none_iff (cy : ℤ) (fb : String → Option JsDate) (s : String) :
    wsParseDate cy fb s = none ↔
      (matchMDY (cleanChars s) = none ∧ matchYMD (cleanChars s) = none
        ∧ matchMD (cleanChars s) = none ∧ fb s = none) := by
  unfold wsParseDate
  cases h1 : matchMDY (cleanChars s) with
  | some t => obtain ⟨m, d, y⟩ := t; simp
  | none =>
    cases h2 : matchYMD (cleanChars s) with
    | some t => obtain ⟨y, m, d⟩ := t; simp
    | none =>
      cases h3 : matchMD (cleanChars s) with
      | some t => obtain ⟨m, d⟩ := t; simp
      | none => simp

/-- C5 counterexample: "1900-01-15" matches the `YYYY-MM-DD` format and its
year 1900 lies in [1900, 2100), yet the standalone `parseDate` fails,
because its `isValidDate` requires the year to be STRICTLY greater than
1900 (this also kills the fallback parse of the original string) — while
the working-server copy of `parseDate`, which has no year check at all,
parses the very same string. -/
theorem parseDate_year1900_counterexample :
    matchYMD (cleanChars "1900-01-15") = some (1900, 1, 15)
    ∧ ((1900 : ℤ) ≤ 1900 ∧ (1900 : ℤ) < 2100)
    ∧ tmParseDate 2024 isoFallback "1900-01-15" = none
    ∧ wsParseDate 2024 isoFallback "1900-01-15" = some ⟨1900, 1, 15⟩ := by
  exact ⟨by decide, by norm_num, by decide, by decide⟩

/-- C5 amended: both copies of `parseDate` strip every character that is
not a digit, slash or hyphen and try `MM/DD/YYYY`, `YYYY-MM-DD`, `MM/DD`
(current year) in that order, then a generic fallback on the original
string. The standalone copy (part_001) gates every candidate through
`isValidDate`: every result has year strictly between 1900 and 2100, a
stripped form matching `MM/DD/YYYY` with a valid-year value is parsed by
that first format, and it fails exactly when no structured format
produces a valid-year date and the fallback does not either. The
working-server copy has NO year-range check: a `MM/DD/YYYY` match is
returned unconditionally whatever its year, and it fails exactly when no
format matches and the fallback fails. -/
theorem parseDate_spec :
    (∀ cy fb s dt, tmParseDate cy fb s = some dt →
      (1900 < dt.year ∧ dt.year < 2100))
    ∧ (∀ cy fb s m d y, matchMDY (cleanChars s) = some (m, d, y) →
        isValidDate (jsNewDate (y : ℤ) ((m : ℤ) - 1) (d : ℤ)) = true →
        tmParseDate cy fb s = some (jsNewDate (y : ℤ) ((m : ℤ) - 1) (d : ℤ)))
    ∧ (∀ cy fb s, tmParseDate cy fb s = none ↔
        (tryFormats cy (cleanChars s) = none ∧
          ∀ dt, fb s = some dt → isValidDate dt = false))
    ∧ (∀ cy fb s m d y, matchMDY (cleanChars s) = some (m, d, y) →
        wsParseDate cy fb s = some (jsNewDate (y : ℤ) ((m : ℤ) - 1) (d : ℤ)))
    ∧ (∀ cy fb s, wsParseDate cy fb s = none ↔
        (matchMDY (cleanChars s) = none ∧ matchYMD (cleanChars s) = none
          ∧ matchMD (cleanChars s) = none ∧ fb s = none)) := by
  refine ⟨?_, ?_, tmParseDate_none_iff, wsParseDate_mdy, wsParseDate_none_iff⟩
  · intro cy fb s dt h
    have hv := tmParseDate_valid cy fb s dt h
    rw [isValidDate] at hv
    constructor
    · exact of_decide_eq_true (Bool.and_elim_left hv)
    · exact of_decide_eq_true (Bool.and_elim_right hv)
  · intro cy fb s m d y hm hv
    exact tmParseDate_of_tryFormats cy fb s _ (tryFormats_mdy cy _ m d y hm hv)

/-- Witness for C5 amended: a successful `MM/DD/YYYY` parse and a failing
input for each copy, the ungated working-server copy shown on a year-1850
date, with every hypothesis discharged concretely. -/
theorem parseDate_spec_witness :
    tmParseDate 2024 isoFallback "07/28/2024" = some ⟨2024, 7, 28⟩
    ∧ (1900 < (⟨2024, 7, 28⟩ : JsDate).year ∧ (⟨2024, 7, 28⟩ : JsDate).year < 2100)
    ∧ tmParseDate 2024 isoFallback "hello" = none
    ∧ wsParseDate 2024 isoFallback "01/15/1850" = some ⟨1850, 1, 15⟩
    ∧ wsParseDate 2024 isoFallback "hello" = none := by
  refine ⟨?_, ?_, ?_, ?_, ?_⟩
  · have h := parseDate_spec.2.1 2024 isoFallback "07/28/2024" 7 28 2024 (by decide) (by decide)
    rw [h]
    decide
  · exact parseDate_spec.1 2024 isoFallback "07/28/2024" ⟨2024, 7, 28⟩ (by decide)
  · exact (parseDate_spec.2.2.1 2024 isoFallback "hello").mpr (by decide)
  · have h := parseDate_spec.2.2.2.1 2024 isoFallback "01/15/1850" 1 15 1850 (by decide)
    rw [h]
    decide
  · exact (parseDate_spec.2.2.2.2 2024 isoFallback "hello").mpr (by decide)

theorem matchYMD_len4 (l : List Char) (t : ℕ × ℕ × ℕ) (h : matchYMD l = some t) :
    (l.takeWhile Char.isDigit).length = 4 := by
  unfold matchYMD at h
  by_cases ha : (l.takeWhile Char.isDigit).length = 4
  · exact ha
  · rw [if_neg ha] at h
    exact absurd h (by simp)

theorem matchMDY_none_of_len4 (l : List Char)
    (h : (l.takeWhile Char.isDigit).length = 4) : matchMDY l = none := by
  unfold matchMDY
  rw [if_neg (by omega)]

theorem matchMD_inv (l : List Char) (m d : ℕ) (h : matchMD l = some (m, d)) :
    (1 ≤ (l.takeWhile Char.isDigit).length ∧ (l.takeWhile Char.isDigit).length ≤ 2)
    ∧ ∃ r2, l.dropWhile Char.isDigit = '/' :: r2
        ∧ 1 ≤ (r2.takeWhile Char.isDigit).length ∧ (r2.takeWhile Char.isDigit).length ≤ 2
        ∧ r2.dropWhile Char.isDigit = [] := by
  unfold matchMD at h
  by_cases ha : (1 ≤ (l.takeWhile Char.isDigit).length ∧ (l.takeWhile Char.isDigit).length ≤ 2)
  · refine ⟨ha, ?_⟩
    rw [if_pos ha] at h
    cases hr1 : l.dropWhile Char.isDigit with
    | nil => rw [hr1, sepThen_nil] at h; exact absurd h (by simp)
    | cons c1 r2 =>
      rw [hr1, sepThen_cons] at h
      by_cases hc1 : c1 = '/'
      · rw [if_pos hc1] at h
        by_cases hb : ((1 ≤ (r2.takeWhile Char.isDigit).length ∧ (r2.takeWhile Char.isDigit).length ≤ 2)
            ∧ r2.dropWhile Char.isDigit = [])
        · exact ⟨r2, by rw [hc1], hb.1.1, hb.1.2, hb.2⟩
        · rw [if_neg hb] at h
          exact absurd h (by simp)
      · rw [if_neg hc1] at h
        exact absurd h (by simp)
  · rw [if_neg ha] at h
    exact absurd h (by simp)

theorem matchMDY_none_of_matchMD (l : List Char) (m d : ℕ) (h : matchMD l = some (m, d)) :
    matchMDY l = none := by
  obtain ⟨ha, r2, hr1, hb1, hb2, hr3⟩ := matchMD_inv l m d h
  unfold matchMDY
  rw [if_pos ha, hr1, sepThen_cons, if_pos rfl, if_pos ⟨hb1, hb2⟩, hr3, sepThen_nil]

theorem matchYMD_none_of_short (l : List Char)
    (h : (l.takeWhile Char.isDigit).length ≤ 2) : matchYMD l = none := by
  unfold matchYMD
  rw [if_neg (by omega)]

theorem tryFormats_ymd (cy : ℤ) (c : List Char) (y m d : ℕ)
    (hm : matchYMD c = some (y, m, d))
    (hv : isValidDate (jsNewDate (y : ℤ) ((m : ℤ) - 1) (d : ℤ)) = true) :
    tryFormats cy c = some (jsNewDate (y : ℤ) ((m : ℤ) - 1) (d : ℤ)) := by
  have hmdy : matchMDY c = none := matchMDY_none_of_len4 c (matchYMD_len4 c _ hm)
  unfold tryFormats stepMDY stepYMD
  rw [hmdy, hm]
  show orO none (orO (fmtResult _) _) = _
  rw [fmtResult, if_pos hv]
  rfl

theorem tryFormats_md (cy : ℤ) (c : List Char) (m d : ℕ)
    (hm : matchMD c = some (m, d))
    (hv : isValidDate (jsNewDate cy ((m : ℤ) - 1) (d : ℤ)) = true) :
    tryFormats cy c = some (jsNewDate cy ((m : ℤ) - 1) (d : ℤ)) := by
  have hmdy : matchMDY c = none := matchMDY_none_of_matchMD c m d hm
  have hymd : matchYMD c = none := matchYMD_none_of_short c (matchMD_inv c m d hm).1.2
  unfold tryFormats stepMDY stepYMD stepMD
  rw [hmdy, hymd, hm]
  show orO none (orO none (fmtResult _)) = _
  rw [fmtResult, if_pos hv]
  rfl

/-- C10 counterexample: "02/00/2024" matches `MM/DD/YYYY` with day 0, an
out-of-range component, and parseDate indeed does not fail, but the result
2024-01-31 is an EARLIER calendar date than the nominal month, not a later
one: a zero component rolls backward. -/
theorem parseDate_zero_rolls_backward :
    matchMDY (cleanChars "02/00/2024") = some (2, 0, 2024)
    ∧ tmParseDate 2024 isoFallback "02/00/2024" = some ⟨2024, 1, 31⟩
    ∧ daysFromCivil 2024 1 31 < daysFromCivil 2024 2 1 := by
  exact ⟨by decide, by decide, by decide⟩

/-- C10 amended: a string matching one of the explicit formats with
out-of-range month or day components is never rejected for that reason:
the value is normalised exactly as `new Date(year, month-1, day)`
normalises it, subject only to the year-range check. Components beyond the
valid range roll forward (02/30/2024 gives 2024-03-01, 13/05/2024 gives
2025-01-05) while zero components roll backward to the preceding month. -/
theorem parseDate_overflow_normalizes :
    (∀ cy (fb : String → Option JsDate) s m d y, matchMDY (cleanChars s) = some (m, d, y) →
      ((m : ℤ) < 1 ∨ 12 < (m : ℤ) ∨ (d : ℤ) < 1 ∨ daysInMonth (y : ℤ) (m : ℤ) < (d : ℤ)) →
      isValidDate (jsNewDate (y : ℤ) ((m : ℤ) - 1) (d : ℤ)) = true →
      tmParseDate cy fb s = some (jsNewDate (y : ℤ) ((m : ℤ) - 1) (d : ℤ)))
    ∧ (∀ cy (fb : String → Option JsDate) s y m d, matchYMD (cleanChars s) = some (y, m, d) →
        ((m : ℤ) < 1 ∨ 12 < (m : ℤ) ∨ (d : ℤ) < 1 ∨ daysInMonth (y : ℤ) (m : ℤ) < (d : ℤ)) →
        isValidDate (jsNewDate (y : ℤ) ((m : ℤ) - 1) (d : ℤ)) = true →
        tmParseDate cy fb s = some (jsNewDate (y : ℤ) ((m : ℤ) - 1) (d : ℤ)))
    ∧ (∀ cy (fb : String → Option JsDate) s m d, matchMD (cleanChars s) = some (m, d) →
        ((m : ℤ) < 1 ∨ 12 < (m : ℤ) ∨ (d : ℤ) < 1 ∨ daysInMonth cy (m : ℤ) < (d : ℤ)) →
        isValidDate (jsNewDate cy ((m : ℤ) - 1) (d : ℤ)) = true →
        tmParseDate cy fb s = some (jsNewDate cy ((m : ℤ) - 1) (d : ℤ)))
    ∧ tmParseDate 2024 isoFallback "02/30/2024" = some ⟨2024, 3, 1⟩
    ∧ tmParseDate 2025 isoFallback "13/05/2024" = some ⟨2025, 1, 5⟩ := by
  refine ⟨?_, ?_, ?_, by decide, by decide⟩
  · intro cy fb s m d y hm _ hv
    exact tmParseDate_of_tryFormats cy fb s _ (tryFormats_mdy cy _ m d y hm hv)
  · intro cy fb s y m d hm _ hv
    exact tmParseDate_of_tryFormats cy fb s _ (tryFormats_ymd cy _ y m d hm hv)
  · intro cy fb s m d hm _ hv
    exact tmParseDate_of_tryFormats cy fb s _ (tryFormats_md cy _ m d hm hv)

/-- Witness for C10 amended: all three format conjuncts applied at concrete
out-of-range inputs. -/
theorem parseDate_overflow_normalizes_witness :
    tmParseDate 2024 isoFallback "02/30/2024" = some (jsNewDate 2024 1 30)
    ∧ tmParseDate 2024 isoFallback "2024-02-30" = some (jsNewDate 2024 1 30)
    ∧ tmParseDate 2024 isoFallback "2/30" = some (jsNewDate 2024 1 30)
    ∧ jsNewDate 2024 1 30 = ⟨2024, 3, 1⟩ := by
  refine ⟨?_, ?_, ?_, by decide⟩
  · have h := parseDate_overflow_normalizes.1 2024 isoFallback "02/30/2024" 2 30 2024
      (by decide) (by decide) (by decide)
    simpa using h
  · have h := parseDate_overflow_normalizes.2.1 2024 isoFallback "2024-02-30" 2024 2 30
      (by decide) (by decide) (by decide)
    simpa using h
  · have h := parseDate_overflow_normalizes.2.2.1 2024 isoFallback "2/30" 2 30
      (by decide) (by decide) (by decide)
    simpa using h

/-! CSV row building. A parsed CSV row is an association list from header
names to cell strings; JS `row[field]` truthiness is: the key is present and
its value is a non-empty string. Two builders exist: `parseCSVRow`
(src/unnamed/part_001 lines 80 to 144) and the per-row body of
`parseRowsWithHeaders` (working-server.ts lines 350 to 424), modelled as
`buildRowWH`. Fields of the built transaction not used by any claim
(originalText, transactionType, memo, location, referenceId, card number)
are omitted. -/

/-- A CSV row after header parsing. -/
abbrev Row := List (String × String)

/-- JS `row[field]`. -/
def rowGet (row : Row) (f : String) : Option String :=
  (row.find? (fun p => p.1 == f)).map Prod.snd

/-- JS truthiness of `row[field]`: present and non-empty. -/
def truthy (o : Option String) : Bool :=
  match o with
  | some v => !(v == "")
  | none => false

/-- Models JS `String.prototype.trim` (ASCII whitespace). -/
def jsTrim (s : String) : String :=
  String.mk (((s.toList.dropWhile isJsSpace).reverse.dropWhile isJsSpace).reverse)

/-- Date field loop shared by both builders, parameterised by the date
parser of the surrounding file (the standalone builder calls the gated
`parseDate` modelled by `tmParseDate`; the working-server builder calls
the ungated copy modelled by `wsParseDate`): the first truthy field whose
value parses as a date wins; a truthy field that fails to parse does not
stop the scan. -/
def firstDateBy (pd : String → Option JsDate) (row : Row) : List String → Option JsDate
  | [] => none
  | f :: fs =>
    if truthy (rowGet row f) then
      match pd ((rowGet row f).getD "") with
      | some dt => some dt
      | none => firstDateBy pd row fs
    else firstDateBy pd row fs

/-- Description field loop shared by both builders: the first field that is
truthy and non-empty after trimming provides the trimmed description. -/
def firstDesc (row : Row) : List String → String
  | [] => ""
  | f :: fs =>
    if truthy (rowGet row f) && !(jsTrim ((rowGet row f).getD "") == "") then
      jsTrim ((rowGet row f).getD "")
    else firstDesc row fs

/-- Amount field loop shared by both builders (part_001 lines 107 to 115,
working-server.ts lines 386 to 394): the first truthy field whose value
parses to a non-NaN number comparing `!== 0` wins, otherwise the initial
0. -/
def firstAmountN (row : Row) : List String → JsNum
  | [] => JsNum.fin 0
  | f :: fs =>
    if truthy (rowGet row f) then
      (if !jsIsNaN (parseAmountN ((rowGet row f).getD ""))
          && jsNeqZero (parseAmountN ((rowGet row f).getD "")) then
        parseAmountN ((rowGet row f).getD "")
      else firstAmountN row fs)
    else firstAmountN row fs

/-- JS `a || b || c` on row lookups: first truthy value, else the last. -/
def or3 (a b c : Option String) : Option String :=
  if truthy a then a else if truthy b then b else c

/-- JS `row[Debit] || row[debit] || row[DEBIT]` of part_001 line 119. -/
def debitCell (row : Row) : Option String :=
  or3 (rowGet row "Debit") (rowGet row "debit") (rowGet row "DEBIT")

/-- JS `row[Credit] || row[credit] || row[CREDIT]` of part_001 line 120. -/
def creditCell (row : Row) : Option String :=
  or3 (rowGet row "Credit") (rowGet row "credit") (rowGet row "CREDIT")

/-- One branch of the debit/credit fallback (part_001 lines 122 to 130): a
truthy cell whose parse is not NaN overwrites the amount with the signed
absolute value of the parse; a NaN parse keeps the previous amount. -/
def dcStep (cell : Option String) (debit : Bool) (a : JsNum) : JsNum :=
  if truthy cell then
    (if jsIsNaN (parseAmountN (cell.getD "")) then a
     else if debit then jsNegAbs (parseAmountN (cell.getD ""))
     else jsAbsN (parseAmountN (cell.getD "")))
  else a

/-- Debit/credit fallback of `parseCSVRow` (part_001 lines 117 to 131), run
only when the amount still compares `=== 0`: the debit branch first, then
the credit branch on its result. -/
def dcAmountN (row : Row) (amount0 : JsNum) : JsNum :=
  if jsEqZero amount0 then
    dcStep (creditCell row) false (dcStep (debitCell row) true amount0)
  else amount0

/-- A transaction built by the PDF line parsers; `amount` is a JS number,
`none` meaning NaN. -/
structure PTx where
  date : JsDate
  description : String
  amount : Option ℚ
  merchantName : String
deriving DecidableEq

/-- A transaction built by the CSV row builders, with the amount kept as
a full JS number (possibly NaN or infinite). -/
structure CTx where
  date : JsDate
  description : String
  amount : JsNum
  merchantName : String
deriving DecidableEq

/-- Removes every maximal digit run of length at least 4; models
`replace(/\d\x7b4,\x7d/g, '')`. -/
def dropLongRunsAux (run : List Char) : List Char → List Char
  | [] => if 4 ≤ run.length then [] else run
  | c :: t =>
    if c.isDigit then dropLongRunsAux (run ++ [c]) t
    else (if 4 ≤ run.length then [] else run) ++ c :: dropLongRunsAux [] t

/-- Digit-run removal entry point. -/
def dropLongDigitRuns (l : List Char) : List Char :=
  dropLongRunsAux [] l

/-- Collapses every whitespace run to a single space; models
`replace(/\s+/g, ' ')`. -/
def collapseWsAux (prevSpace : Bool) : List Char → List Char
  | [] => []
  | c :: t =>
    if isJsSpace c then
      (if prevSpace then [] else [' ']) ++ collapseWsAux true t
    else c :: collapseWsAux false t

/-- Whitespace collapsing entry point. -/
def collapseWs (l : List Char) : List Char :=
  collapseWsAux false l

/-- Splits on whitespace runs, dropping empty segments; models
`split(/\s+/)` on the already-trimmed strings it is applied to. -/
def splitWsAux (cur : List Char) : List Char → List (List Char)
  | [] => if cur.isEmpty then [] else [cur.reverse]
  | c :: t =>
    if isJsSpace c then
      if cur.isEmpty then splitWsAux [] t
      else cur.reverse :: splitWsAux [] t
    else splitWsAux (c :: cur) t

/-- Whitespace splitting entry point. -/
def splitWs (l : List Char) : List (List Char) :=
  splitWsAux [] l

/-- Models `extractMerchantName` of part_001 lines 288 to 304: remove
asterisks, remove digit runs of length at least 4, remove hash marks,
collapse whitespace, trim, then keep at most the first three words. -/
def extractMerchantName (description : String) : String :=
  let step1 := description.toList.filter (fun c => !(c = '*'))
  let step2 := dropLongDigitRuns step1
  let step3 := step2.filter (fun c => !(c = '#' || c = '*'))
  let cleaned := jsTrim (String.mk (collapseWs step3))
  let words := splitWs cleaned.toList
  if 3 < words.length then String.intercalate " " ((words.take 3).map String.mk)
  else cleaned

/-- Field lists of `parseCSVRow` (part_001 lines 82 to 84). -/
def dateFields1 : List String :=
  ["Date", "Transaction Date", "Posted Date", "date", "DATE"]

/-- Description fields of `parseCSVRow`. -/
def descFields1 : List String :=
  ["Description", "Merchant", "Transaction Description", "description", "DESCRIPTION", "Payee"]

/-- Amount fields of `parseCSVRow`. -/
def amountFields1 : List String :=
  ["Amount", "Transaction Amount", "Debit", "Credit", "amount", "AMOUNT"]

/-- Models `parseCSVRow` of part_001 lines 80 to 144: reject when the date
fails to parse, the description is empty after trimming, or the amount
still compares `=== 0`; the date fields go through the gated standalone
`parseDate`. -/
def parseCSVRow (cy : ℤ) (fb : String → Option JsDate) (row : Row) : Option CTx :=
  match firstDateBy (tmParseDate cy fb) row dateFields1 with
  | none => none
  | some dt =>
    if firstDesc row descFields1 = ""
        ∨ jsEqZero (dcAmountN row (firstAmountN row amountFields1)) = true then
      none
    else
      some ⟨dt, firstDesc row descFields1, dcAmountN row (firstAmountN row amountFields1),
        extractMerchantName (firstDesc row descFields1)⟩

/-- Date fields of `parseRowsWithHeaders` (working-server.ts line 362:
the base list with two entries appended again). -/
def wsDateFields : List String :=
  ["Date", "Transaction Date", "Posted Date", "date", "Transaction Date", "Posted Date"]

/-- Description fields of `parseRowsWithHeaders` (line 371). -/
def wsDescFields : List String :=
  ["Name", "Description", "Merchant", "Transaction Description", "description", "Transaction"]

/-- Amount fields of `parseRowsWithHeaders` (line 355). -/
def wsAmountFields : List String :=
  ["Amount", "Transaction Amount", "Debit", "Credit", "amount"]

/-- Amount logic of `parseRowsWithHeaders` (lines 379 to 395): a truthy
Debit gives minus the absolute value of its parse and a truthy Credit the
absolute value, WITHOUT any NaN check, so an unparseable cell yields NaN;
otherwise the generic field loop with its NaN check runs. -/
def wsAmountN (row : Row) : JsNum :=
  if truthy (rowGet row "Debit") then jsNegAbs (parseAmountN ((rowGet row "Debit").getD ""))
  else if truthy (rowGet row "Credit") then jsAbsN (parseAmountN ((rowGet row "Credit").getD ""))
  else firstAmountN row wsAmountFields

/-- Splits on one separator character, keeping empty segments; models JS
`split` with a plain string separator. -/
def splitCharAux (sep : Char) (cur : List Char) : List Char → List (List Char)
  | [] => [cur.reverse]
  | c :: t =>
    if c = sep then cur.reverse :: splitCharAux sep [] t
    else splitCharAux sep (c :: cur) t

/-- Single-character split entry point. -/
def splitChar (sep : Char) (l : List Char) : List (List Char) :=
  splitCharAux sep [] l

/-- Models `description.split(' ').slice(0, 3).join(' ')` of
working-server.ts line 412. -/
def wsMerchant (description : String) : String :=
  String.intercalate " " (((splitChar ' ' description.toList).take 3).map String.mk)

/-- Models the per-row body of `parseRowsWithHeaders` (working-server.ts
lines 350 to 424), with its date fields parsed by the working-server
`parseDate`, which has NO year-range gate: push the transaction when the
date parsed, the description is non-empty and the amount compares
`!== 0`. -/
def buildRowWH (cy : ℤ) (fb : String → Option JsDate) (row : Row) : Option CTx :=
  match firstDateBy (wsParseDate cy fb) row wsDateFields with
  | none => none
  | some dt =>
    if firstDesc row wsDescFields = "" then none
    else if jsNeqZero (wsAmountN row) then
      some ⟨dt, firstDesc row wsDescFields, wsAmountN row, wsMerchant (firstDesc row wsDescFields)⟩
    else none

theorem firstDateBy_valid (pd : String → Option JsDate)
    (hpd : ∀ s dt, pd s = some dt → isValidDate dt = true) (row : Row) :
    ∀ (fs : List String) (dt : JsDate), firstDateBy pd row fs = some dt →
      isValidDate dt = true := by
  intro fs
  induction fs with
  | nil => intro dt h; exact absurd h (by simp [firstDateBy])
  | cons f fs ih =>
    intro dt h
    rw [firstDateBy] at h
    by_cases ht : truthy (rowGet row f) = true
    · rw [if_pos ht] at h
      cases hp : pd ((rowGet row f).getD "") with
      | some dt2 =>
        rw [hp] at h
        cases h
        exact hpd _ _ hp
      | none =>
        rw [hp] at h
        exact ih dt h
    · rw [if_neg ht] at h
      exact ih dt h

theorem firstDateBy_mem (pd : String → Option JsDate) (row : Row) :
    ∀ (fs : List String) (dt : JsDate), firstDateBy pd row fs = some dt →
      ∃ f ∈ fs, truthy (rowGet row f) = true ∧ pd ((rowGet row f).getD "") = some dt := by
  intro fs
  induction fs with
  | nil => intro dt h; exact absurd h (by simp [firstDateBy])
  | cons f fs ih =>
    intro dt h
    rw [firstDateBy] at h
    by_cases ht : truthy (rowGet row f) = true
    · rw [if_pos ht] at h
      cases hp : pd ((rowGet row f).getD "") with
      | some dt2 =>
        rw [hp] at h
        cases h
        exact ⟨f, by simp, ht, hp⟩
      | none =>
        rw [hp] at h
        obtain ⟨g, hg, hgt, hgp⟩ := ih dt h
        exact ⟨g, by simp [hg], hgt, hgp⟩
    · rw [if_neg ht] at h
      obtain ⟨g, hg, hgt, hgp⟩ := ih dt h
      exact ⟨g, by simp [hg], hgt, hgp⟩

theorem firstAmountN_not_nan (row : Row) :
    ∀ fs : List String, firstAmountN row fs ≠ JsNum.nan := by
  intro fs
  induction fs with
  | nil => simp [firstAmountN]
  | cons f fs ih =>
    rw [firstAmountN]
    by_cases ht : truthy (rowGet row f) = true
    · rw [if_pos ht]
      by_cases hc : (!jsIsNaN (parseAmountN ((rowGet row f).getD ""))
          && jsNeqZero (parseAmountN ((rowGet row f).getD ""))) = true
      · rw [if_pos hc]
        intro hcon
        rw [hcon] at hc
        simp [jsIsNaN] at hc
      · rw [if_neg hc]
        exact ih
    · rw [if_neg ht]
      exact ih

theorem jsAbsN_not_nan (v : JsNum) (h : v ≠ JsNum.nan) : jsAbsN v ≠ JsNum.nan := by
  cases v with
  | nan => exact absurd rfl h
  | inf b => simp [jsAbsN]
  | fin q => simp [jsAbsN]

theorem jsNegAbs_not_nan (v : JsNum) (h : v ≠ JsNum.nan) : jsNegAbs v ≠ JsNum.nan := by
  cases v with
  | nan => exact absurd rfl h
  | inf b => simp [jsNegAbs, jsNegN, jsAbsN]
  | fin q => simp [jsNegAbs, jsNegN, jsAbsN]

theorem dcStep_not_nan (cell : Option String) (b : Bool) (a : JsNum)
    (ha : a ≠ JsNum.nan) : dcStep cell b a ≠ JsNum.nan := by
  rw [dcStep]
  by_cases ht : truthy cell = true
  · rw [if_pos ht]
    by_cases hn : jsIsNaN (parseAmountN (cell.getD "")) = true
    · rw [if_pos hn]
      exact ha
    · rw [if_neg hn]
      have hv : parseAmountN (cell.getD "") ≠ JsNum.nan := by
        intro hc
        rw [hc] at hn
        exact hn rfl
      cases b with
      | true => simp only [if_pos]; exact jsNegAbs_not_nan _ hv
      | false => simp only [Bool.false_eq_true, if_false]; exact jsAbsN_not_nan _ hv
  · rw [if_neg ht]
    exact ha

theorem dcAmountN_not_nan (row : Row) (a : JsNum) (ha : a ≠ JsNum.nan) :
    dcAmountN row a ≠ JsNum.nan := by
  rw [dcAmountN]
  by_cases hz : jsEqZero a = true
  · rw [if_pos hz]
    exact dcStep_not_nan _ _ _ (dcStep_not_nan _ _ _ ha)
  · rw [if_neg hz]
    exact ha

/-- C7 counterexample: the working-server header builder violates both
halves of the claimed invariant. A row whose Debit cell is the
unparseable string "abc" is built with amount NaN, since `Math.abs(NaN)`
is NaN and `NaN !== 0` holds; and a row dated 07/28/1850 is built with a
date no `isValidDate` gate would accept, because the working-server
`parseDate` has no year check. -/
theorem buildRow_nan_counterexample :
    buildRowWH 2024 isoFallback [("Date", "07/28/2024"), ("Name", "FOO"), ("Debit", "abc")]
      = some ⟨⟨2024, 7, 28⟩, "FOO", JsNum.nan, "FOO"⟩
    ∧ parseAmountN "abc" = JsNum.nan
    ∧ buildRowWH 2024 isoFallback [("Date", "07/28/1850"), ("Name", "OLD"), ("Amount", "-5")]
      = some ⟨⟨1850, 7, 28⟩, "OLD", JsNum.fin (-5), "OLD"⟩
    ∧ isValidDate ⟨1850, 7, 28⟩ = false := by
  exact ⟨by decide, by decide, by decide, by decide⟩

/-- C7 amended: `parseCSVRow` of the standalone parser satisfies the full
invariant: every produced transaction has a date accepted by
`isValidDate` (year strictly between 1900 and 2100), a non-empty trimmed
description and a non-NaN amount comparing `!== 0`, and a candidate whose
description is empty or whose amount compares `=== 0` is rejected. The
working-server header builder guarantees only the non-empty description
and the `!== 0` comparison: its date comes from some truthy date field
through the UNGATED working-server `parseDate`, so no year-range property
holds, and since its Debit/Credit branches skip the NaN check a built
transaction can carry amount NaN, which only happens through a truthy
Debit or Credit cell. -/
theorem builder_invariants :
    (∀ cy fb row tx, parseCSVRow cy fb row = some tx →
      (isValidDate tx.date = true ∧ tx.description ≠ ""
        ∧ tx.amount ≠ JsNum.nan ∧ jsEqZero tx.amount = false))
    ∧ (∀ cy fb row, firstDesc row descFields1 = ""
          ∨ jsEqZero (dcAmountN row (firstAmountN row amountFields1)) = true →
        parseCSVRow cy fb row = none)
    ∧ (∀ cy fb row tx, buildRowWH cy fb row = some tx →
        (tx.description ≠ "" ∧ jsNeqZero tx.amount = true
          ∧ (∃ f ∈ wsDateFields, truthy (rowGet row f) = true
              ∧ wsParseDate cy fb ((rowGet row f).getD "") = some tx.date)
          ∧ (tx.amount = JsNum.nan →
              (truthy (rowGet row "Debit") = true ∨ truthy (rowGet row "Credit") = true)))) := by
  refine ⟨?_, ?_, ?_⟩
  · intro cy fb row tx h
    unfold parseCSVRow at h
    split at h
    next hd => exact absurd h (by simp)
    next dt hd =>
      split at h
      next => exact absurd h (by simp)
      next hg =>
        push_neg at hg
        cases h
        refine ⟨firstDateBy_valid (tmParseDate cy fb)
          (fun s dt2 hp => tmParseDate_valid cy fb s dt2 hp) row _ dt hd, hg.1, ?_, ?_⟩
        · exact dcAmountN_not_nan row _ (firstAmountN_not_nan row _)
        · cases hb : jsEqZero (dcAmountN row (firstAmountN row amountFields1)) with
          | false => rfl
          | true => exact absurd hb hg.2
  · intro cy fb row hg
    unfold parseCSVRow
    split
    · rfl
    · split
      · rfl
      next hneg => exact absurd hg hneg
  · intro cy fb row tx h
    unfold buildRowWH at h
    split at h
    next hd => exact absurd h (by simp)
    next dt hd =>
      split at h
      next => exact absurd h (by simp)
      next hdesc =>
        split at h
        next hne =>
          cases h
          refine ⟨hdesc, hne, firstDateBy_mem (wsParseDate cy fb) row _ dt hd, ?_⟩
          intro hnan
          rw [wsAmountN] at hnan
          by_cases hdb : truthy (rowGet row "Debit") = true
          · exact Or.inl hdb
          · rw [if_neg hdb] at hnan
            by_cases hcr : truthy (rowGet row "Credit") = true
            · exact Or.inr hcr
            · rw [if_neg hcr] at hnan
              exact absurd hnan (firstAmountN_not_nan row _)
        next => exact absurd h (by simp)

/-- Witness for C7 amended: the invariants applied at a fully valid row,
a rejected zero-amount row, and the NaN-amount acceptance of the header
builder, each at a concrete row. -/
theorem builder_invariants_witness :
    (isValidDate (⟨2024, 7, 28⟩ : JsDate) = true ∧ "STARBUCKS" ≠ ""
      ∧ JsNum.fin (-5) ≠ JsNum.nan ∧ jsEqZero (JsNum.fin (-5)) = false)
    ∧ parseCSVRow 2024 isoFallback
        [("Date", "07/28/2024"), ("Description", "zero"), ("Amount", "0.00")] = none
    ∧ ("FOO" ≠ "" ∧ jsNeqZero JsNum.nan = true
        ∧ (∃ f ∈ wsDateFields,
            truthy (rowGet [("Date", "07/28/2024"), ("Name", "FOO"), ("Debit", "abc")] f) = true
            ∧ wsParseDate 2024 isoFallback
                ((rowGet [("Date", "07/28/2024"), ("Name", "FOO"), ("Debit", "abc")] f).getD "")
              = some (⟨2024, 7, 28⟩ : JsDate))
        ∧ (JsNum.nan = JsNum.nan →
            (truthy (rowGet [("Date", "07/28/2024"), ("Name", "FOO"), ("Debit", "abc")] "Debit") = true
              ∨ truthy (rowGet [("Date", "07/28/2024"), ("Name", "FOO"), ("Debit", "abc")] "Credit") = true))) := by
  refine ⟨?_, ?_, ?_⟩
  · exact builder_invariants.1 2024 isoFallback
      [("Date", "07/28/2024"), ("Description", "STARBUCKS"), ("Amount", "-5")]
      ⟨⟨2024, 7, 28⟩, "STARBUCKS", JsNum.fin (-5), "STARBUCKS"⟩ (by decide)
  · exact builder_invariants.2.1 2024 isoFallback
      [("Date", "07/28/2024"), ("Description", "zero"), ("Amount", "0.00")] (by right; decide)
  · exact builder_invariants.2.2 2024 isoFallback
      [("Date", "07/28/2024"), ("Name", "FOO"), ("Debit", "abc")]
      ⟨⟨2024, 7, 28⟩, "FOO", JsNum.nan, "FOO"⟩ (by decide)

/-! PDF line parsing. Two line parsers exist: `parsePDFLine` of
src/unnamed/part_001 lines 191 to 230 (modelled as `parsePDFLine1`) and
`StatementParser.parsePDFLine` of src/src/server/categorizer.ts lines 270
to 305 (modelled as `parsePDFLine2`). The fixed regexes are modelled by
combinators that enumerate, for each quantifier, its candidate splits in
regex preference order (greedy longest-first, lazy shortest-first, ordered
alternation, leftmost start), taking the first combination that lets the
whole pattern succeed, which is exactly the backtracking search the JS
regex engine performs for these patterns. -/

/-- Candidates of `\d{1,2}`: two digits preferred over one. -/
def cand2or1Digits (l : List Char) : List (List Char × List Char) :=
  match l with
  | a :: b :: t =>
    if a.isDigit && b.isDigit then [([a, b], t), ([a], b :: t)]
    else if a.isDigit then [([a], b :: t)] else []
  | [a] => if a.isDigit then [([a], [])] else []
  | [] => []

/-- Candidates of `\d{n}`: exactly n digits. -/
def candNDigits (n : ℕ) (l : List Char) : List (List Char × List Char) :=
  if (l.take n).length = n && (l.take n).all Char.isDigit then [(l.take n, l.drop n)] else []

/-- Candidates of a literal character. -/
def candLit (ch : Char) (l : List Char) : List (List Char × List Char) :=
  match l with
  | x :: t => if x = ch then [([x], t)] else []
  | [] => []

/-- Candidates of `\s+`: greedy, longest run first. -/
def candWsPlus (l : List Char) : List (List Char × List Char) :=
  (List.range (l.takeWhile isJsSpace).length).map
    (fun i => ((l.takeWhile isJsSpace).take ((l.takeWhile isJsSpace).length - i),
      l.drop ((l.takeWhile isJsSpace).length - i)))

/-- Dot class of JS regex `.`: anything but a line terminator. -/
def isDotChar (c : Char) : Bool :=
  !(c = '\n' || c = '\r' || c.toNat = 8232 || c.toNat = 8233)

/-- Candidates of `(.+?)`: lazy, shortest first. -/
def candDotLazy (l : List Char) : List (List Char × List Char) :=
  (List.range (l.takeWhile isDotChar).length).map
    (fun i => ((l.takeWhile isDotChar).take (i + 1), l.drop (i + 1)))

/-- Candidates of an optional character (`\$?`, `\.?`): greedy, presence
preferred. -/
def candOpt (ch : Char) (l : List Char) : List (List Char × List Char) :=
  match l with
  | x :: t => if x = ch then [([x], t), ([], x :: t)] else [([], x :: t)]
  | [] => [([], [])]

/-- Amount-character class `[\d,]`. -/
def isAmtChar (c : Char) : Bool :=
  c.isDigit || c = ','

/-- Candidates of `[\d,]+`: greedy, longest run first. -/
def candAmtPlus (l : List Char) : List (List Char × List Char) :=
  (List.range (l.takeWhile isAmtChar).length).map
    (fun i => ((l.takeWhile isAmtChar).take ((l.takeWhile isAmtChar).length - i),
      l.drop ((l.takeWhile isAmtChar).length - i)))

/-- Candidates of `\d{0,2}`: greedy, two digits down to none. -/
def candUpTo2Digits (l : List Char) : List (List Char × List Char) :=
  (List.range (((l.takeWhile Char.isDigit).take 2).length + 1)).map
    (fun i => (((l.takeWhile Char.isDigit).take 2).take
        (((l.takeWhile Char.isDigit).take 2).length - i),
      l.drop (((l.takeWhile Char.isDigit).take 2).length - i)))

/-- Shared pattern tail `\s*+\$?([\d,]+\.?\d{0,2})$` of the three part_001
line patterns (the third pattern has no `\$?`): returns the captured
amount group. The tail starts at the `\s+` separating description from
amount. -/
def amtTail (dollar : Bool) (l : List Char) : Option (List Char) :=
  (candWsPlus l).findSome? (fun p8 =>
  ((if dollar then candOpt '$' p8.2 else [([], p8.2)]).findSome? (fun p9 =>
  (candAmtPlus p9.2).findSome? (fun p10 =>
  (candOpt '.' p10.2).findSome? (fun p11 =>
  (candUpTo2Digits p11.2).findSome? (fun p12 =>
  if p12.2 = [] then some (p10.1 ++ p11.1 ++ p12.1) else none))))))

/-- Lazy description followed by the amount tail: `(.+?)` then `amtTail`. -/
def descAmt (dollar : Bool) (l : List Char) : Option (List Char × List Char) :=
  (candDotLazy l).findSome? (fun p7 =>
    (amtTail dollar p7.2).map (fun am => (p7.1, am)))

/-- Anchored-at-start body of part_001 line pattern 1,
`(\d{1,2}\/\d{1,2}\/\d{4})\s+(.+?)\s+\$?([\d,]+\.?\d{0,2})$`, returning
(date capture, description capture, amount capture). -/
def p1From (l : List Char) : Option (List Char × List Char × List Char) :=
  (cand2or1Digits l).findSome? (fun p1 =>
  (candLit '/' p1.2).findSome? (fun p2 =>
  (cand2or1Digits p2.2).findSome? (fun p3 =>
  (candLit '/' p3.2).findSome? (fun p4 =>
  (candNDigits 4 p4.2).findSome? (fun p5 =>
  (descAmt true p5.2).map (fun r =>
    (p1.1 ++ '/' :: p3.1 ++ '/' :: p5.1, r.1, r.2)))))))

/-- Body of part_001 line pattern 2,
`(\d{1,2}\/\d{1,2})\s+(.+?)\s+\$?([\d,]+\.?\d{0,2})$`. -/
def p2From (l : List Char) : Option (List Char × List Char × List Char) :=
  (cand2or1Digits l).findSome? (fun p1 =>
  (candLit '/' p1.2).findSome? (fun p2 =>
  (cand2or1Digits p2.2).findSome? (fun p3 =>
  (descAmt true p3.2).map (fun r =>
    (p1.1 ++ '/' :: p3.1, r.1, r.2)))))

/-- Body of part_001 line pattern 3,
`(\d{4}-\d{2}-\d{2})\s+(.+?)\s+([\d,]+\.?\d{0,2})$`. -/
def p3From (l : List Char) : Option (List Char × List Char × List Char) :=
  (candNDigits 4 l).findSome? (fun p1 =>
  (candLit '-' p1.2).findSome? (fun p2 =>
  (candNDigits 2 p2.2).findSome? (fun p3 =>
  (candLit '-' p3.2).findSome? (fun p4 =>
  (candNDigits 2 p4.2).findSome? (fun p5 =>
  (descAmt false p5.2).map (fun r =>
    (p1.1 ++ '-' :: p3.1 ++ '-' :: p5.1, r.1, r.2)))))))

/-- Leftmost-start search of an unanchored pattern body. -/
def searchLeft {α : Type} (f : List Char → Option α) : List Char → Option α
  | [] => f []
  | c :: t =>
    match f (c :: t) with
    | some x => some x
    | none => searchLeft f t

/-- Body shared by the three pattern branches of part_001 `parsePDFLine`:
parse the date, parse the amount, reject NaN and zero, clean the
description, negate a positive amount. A `none` result models `continue`. -/
def pdfLineTx (cy : ℤ) (fb : String → Option JsDate) (dateStr desc amountStr : List Char) :
    Option PTx :=
  match tmParseDate cy fb (String.mk dateStr) with
  | none => none
  | some date =>
    match parseAmount (String.mk amountStr) with
    | none => none
    | some a =>
      if a = 0 then none
      else
        if jsTrim (String.mk (collapseWs desc)) = ""
            ∨ (jsTrim (String.mk (collapseWs desc))).length < 2 then none
        else
          some ⟨date, jsTrim (String.mk (collapseWs desc)),
            some (if 0 < a then -a else a),
            extractMerchantName (jsTrim (String.mk (collapseWs desc)))⟩

/-- Models `parsePDFLine` of part_001 lines 191 to 230: try the three
patterns in order; any sub-check failure continues with the next pattern;
the amount sign NEVER depends on keywords, a positive extracted amount is
always negated. -/
def parsePDFLine1 (cy : ℤ) (fb : String → Option JsDate) (line : String) : Option PTx :=
  orO (match searchLeft p1From line.toList with
       | some r => pdfLineTx cy fb r.1 r.2.1 r.2.2
       | none => none)
    (orO (match searchLeft p2From line.toList with
          | some r => pdfLineTx cy fb r.1 r.2.1 r.2.2
          | none => none)
      (match searchLeft p3From line.toList with
       | some r => pdfLineTx cy fb r.1 r.2.1 r.2.2
       | none => none))

/-- Date alternation of `StatementParser.parsePDFLine`,
`(\d{1,2}\/\d{1,2}\/\d{4}|\d{4}-\d{2}-\d{2}|\d{2}\/\d{2})`, tried at one
start position; returns the matched text. -/
def dateAltFrom (l : List Char) : Option (List Char) :=
  orO ((cand2or1Digits l).findSome? (fun p1 =>
    (candLit '/' p1.2).findSome? (fun p2 =>
    (cand2or1Digits p2.2).findSome? (fun p3 =>
    (candLit '/' p3.2).findSome? (fun p4 =>
    (candNDigits 4 p4.2).findSome? (fun p5 =>
    some (p1.1 ++ '/' :: p3.1 ++ '/' :: p5.1)))))))
  (orO ((candNDigits 4 l).findSome? (fun p1 =>
    (candLit '-' p1.2).findSome? (fun p2 =>
    (candNDigits 2 p2.2).findSome? (fun p3 =>
    (candLit '-' p3.2).findSome? (fun p4 =>
    (candNDigits 2 p4.2).findSome? (fun p5 =>
    some (p1.1 ++ '-' :: p3.1 ++ '-' :: p5.1)))))))
    ((candNDigits 2 l).findSome? (fun p1 =>
      (candLit '/' p1.2).findSome? (fun p2 =>
      (candNDigits 2 p2.2).findSome? (fun p3 =>
      some (p1.1 ++ '/' :: p3.1))))))

/-- One match attempt of the global amount regex
`[\$]?([\d,]+\.?\d{0,2})` at a fixed position: (full match, group, rest
after the match). -/
def amtAt (l : List Char) : Option (List Char × List Char × List Char) :=
  (candOpt '$' l).findSome? (fun p9 =>
  (candAmtPlus p9.2).findSome? (fun p10 =>
  (candOpt '.' p10.2).findSome? (fun p11 =>
  (candUpTo2Digits p11.2).findSome? (fun p12 =>
  some (p9.1 ++ p10.1 ++ p11.1 ++ p12.1, p10.1 ++ p11.1 ++ p12.1, p12.2)))))

/-- Models `String.prototype.matchAll` with the amount regex: successive
leftmost matches, resuming after each (necessarily non-empty) match. The
fuel, initialised to the list length, strictly bounds the number of
iterations and never runs out because every iteration consumes at least
one character. -/
def allAmtAux : ℕ → List Char → List (List Char × List Char)
  | 0, _ => []
  | _ + 1, [] => []
  | fuel + 1, c :: t =>
    match amtAt (c :: t) with
    | some r => (r.1, r.2.1) :: allAmtAux fuel r.2.2
    | none => allAmtAux fuel t

/-- All amount matches of a line. -/
def allAmtMatches (l : List Char) : List (List Char × List Char) :=
  allAmtAux l.length l

/-- Models `StatementParser.parseDate` (categorizer.ts lines 307 to 334):
the same three formats but with NO `isValidDate` gate and NO generic
fallback. -/
def parseDateWS (cy : ℤ) (s : String) : Option JsDate :=
  match matchMDY (cleanChars s) with
  | some (m, d, y) => some (jsNewDate (y : ℤ) ((m : ℤ) - 1) (d : ℤ))
  | none =>
    match matchYMD (cleanChars s) with
    | some (y, m, d) => some (jsNewDate (y : ℤ) ((m : ℤ) - 1) (d : ℤ))
    | none =>
      match matchMD (cleanChars s) with
      | some (m, d) => some (jsNewDate cy ((m : ℤ) - 1) (d : ℤ))
      | none => none

/-- Models `StatementParser.parseAmount` (categorizer.ts lines 336 to 343):
strips only dollar signs and commas, no parentheses handling. -/
def parseAmount2 (l : List Char) : Option ℚ :=
  parseFloatQ (l.filter (fun c => !(c = '$' || c = ',')))

/-- First index of a substring occurrence; models JS `indexOf` on the
inputs where the needle does occur. -/
def idxOfSubAux (needle : List Char) : List Char → ℕ → Option ℕ
  | [], i => if leadsWith needle [] then some i else none
  | c :: t, i => if leadsWith needle (c :: t) then some i else idxOfSubAux needle t (i + 1)

/-- Entry point of the first-occurrence search. -/
def idxOfSub (hay needle : List Char) : Option ℕ :=
  idxOfSubAux needle hay 0

/-- Last index of a substring occurrence; models JS `lastIndexOf`. -/
def lastIdxAux (needle : List Char) : ℕ → Option ℕ → List Char → Option ℕ
  | i, best, [] => if leadsWith needle [] then some i else best
  | i, best, c :: t =>
    lastIdxAux needle (i + 1) (if leadsWith needle (c :: t) then some i else best) t

/-- Entry point of the last-occurrence search. -/
def lastIdxOfSub (hay needle : List Char) : Option ℕ :=
  lastIdxAux needle 0 none hay

/-- Models JS `String.prototype.substring`: clamps both indices to the
string and swaps them when start exceeds end. -/
def jsSubstring (l : List Char) (a b : ℕ) : List Char :=
  (l.take (max (min a l.length) (min b l.length))).drop (min (min a l.length) (min b l.length))

/-- Models JS `replace` with a string pattern and empty replacement:
removes the first occurrence of the needle. -/
def replaceFirst (l needle : List Char) : List Char :=
  match idxOfSub l needle with
  | none => l
  | some i => l.take i ++ l.drop (i + needle.length)

/-- Models `StatementParser.extractMerchantName` (categorizer.ts lines 345
to 357): like part_001 but WITHOUT the whitespace-collapsing step. -/
def extractMerchantName2 (description : String) : String :=
  let step1 := description.toList.filter (fun c => !(c = '*'))
  let step2 := dropLongDigitRuns step1
  let step3 := step2.filter (fun c => !(c = '#' || c = '*'))
  let cleaned := jsTrim (String.mk step3)
  let words := splitWs cleaned.toList
  if 3 < words.length then String.intercalate " " ((words.take 3).map String.mk)
  else cleaned

/-- Keyword test of `StatementParser.parsePDFLine` line 300:
`line.toLowerCase().includes('payment') || ...includes('credit')`. -/
def pcKw (line : String) : Bool :=
  strIncludes (lowerStr line) "payment" || strIncludes (lowerStr line) "credit"

/-- Description extraction of `StatementParser.parsePDFLine` (lines 287 to
293): substring between date end and last amount start, with a
remove-both-matches fallback when that is empty. -/
def wsLineDesc (l ds full : List Char) : String :=
  if jsTrim (String.mk (jsSubstring l ((idxOfSub l ds).getD 0 + ds.length)
      ((lastIdxOfSub l full).getD 0))) = "" then
    jsTrim (String.mk (replaceFirst (replaceFirst l ds) full))
  else
    jsTrim (String.mk (jsSubstring l ((idxOfSub l ds).getD 0 + ds.length)
      ((lastIdxOfSub l full).getD 0)))

/-- Models `StatementParser.parsePDFLine` (categorizer.ts lines 270 to
305): find the first date match, parse it, take the LAST amount match,
reject NaN and zero, extract the description, and set the sign from the
payment and credit keywords. -/
def parsePDFLine2 (cy : ℤ) (line : String) : Option PTx :=
  match searchLeft dateAltFrom line.toList with
  | none => none
  | some ds =>
    match parseDateWS cy (String.mk ds) with
    | none => none
    | some date =>
      match (allAmtMatches line.toList).getLast? with
      | none => none
      | some fg =>
        match parseAmount2 fg.2 with
        | none => none
        | some a =>
          if a = 0 then none
          else
            if wsLineDesc line.toList ds fg.1 = ""
                ∨ (wsLineDesc line.toList ds fg.1).length < 3 then none
            else
              some ⟨date, wsLineDesc line.toList ds fg.1,
                some (if pcKw line then a else -a),
                extractMerchantName2 (wsLineDesc line.toList ds fg.1)⟩

theorem findSome?_prop {α β : Type} (P : β → Prop) :
    ∀ (l : List α) (f : α → Option β),
      (∀ a ∈ l, ∀ b, f a = some b → P b) → ∀ b, l.findSome? f = some b → P b := by
  intro l
  induction l with
  | nil => intro f _ b hb; simp [List.findSome?] at hb
  | cons a t ih =>
    intro f h b hb
    rw [List.findSome?_cons] at hb
    cases hfa : f a with
    | some c =>
      rw [hfa] at hb
      have hb2 : some c = some b := hb
      cases hb2
      exact h a (List.mem_cons_self a t) _ hfa
    | none =>
      rw [hfa] at hb
      have hb2 : List.findSome? f t = some b := hb
      exact ih f (fun x hx => h x (List.mem_cons_of_mem a hx)) b hb2

theorem searchLeft_prop {α : Type} (P : α → Prop) (f : List Char → Option α)
    (hf : ∀ l x, f l = some x → P x) :
    ∀ (l : List Char) (x : α), searchLeft f l = some x → P x := by
  intro l
  induction l with
  | nil => intro x hx; exact hf [] x hx
  | cons c t ih =>
    intro x hx
    unfold searchLeft at hx
    cases hfc : f (c :: t) with
    | some y =>
      rw [hfc] at hx
      have hx2 : some y = some x := hx
      cases hx2
      exact hf _ _ hfc
    | none =>
      rw [hfc] at hx
      have hx2 : searchLeft f t = some x := hx
      exact ih x hx2

/-- Character class of an amount capture group: digits, commas, one dot. -/
def amtGrpChar (c : Char) : Bool :=
  c.isDigit || c = ',' || c = '.'

theorem candAmtPlus_mem (l : List Char) (p : List Char × List Char)
    (h : p ∈ candAmtPlus l) : ∀ c ∈ p.1, amtGrpChar c = true := by
  unfold candAmtPlus at h
  rw [List.mem_map] at h
  obtain ⟨i, -, heq⟩ := h
  intro c hc
  rw [← heq] at hc
  have h1 : c ∈ l.takeWhile isAmtChar := List.mem_of_mem_take hc
  have h2 : isAmtChar c = true := List.mem_takeWhile_imp h1
  rw [isAmtChar] at h2
  rw [amtGrpChar]
  simp only [Bool.or_eq_true] at h2 ⊢
  tauto

theorem candUpTo2_mem (l : List Char) (p : List Char × List Char)
    (h : p ∈ candUpTo2Digits l) : ∀ c ∈ p.1, amtGrpChar c = true := by
  unfold candUpTo2Digits at h
  rw [List.mem_map] at h
  obtain ⟨i, -, heq⟩ := h
  intro c hc
  rw [← heq] at hc
  have h1 : c ∈ (l.takeWhile Char.isDigit).take 2 := List.mem_of_mem_take hc
  have h2 : c ∈ l.takeWhile Char.isDigit := List.mem_of_mem_take h1
  have h3 : c.isDigit = true := List.mem_takeWhile_imp h2
  rw [amtGrpChar]
  simp [h3]

theorem candOpt_mem (ch : Char) (l : List Char) (p : List Char × List Char)
    (h : p ∈ candOpt ch l) : ∀ c ∈ p.1, c = ch := by
  intro c hc
  cases l with
  | nil =>
    simp [candOpt] at h
    rw [h] at hc
    simp at hc
  | cons x t =>
    by_cases hx : x = ch
    · simp [candOpt, hx] at h
      rcases h with h1 | h1
      · rw [h1] at hc
        simpa using hc
      · rw [h1] at hc
        simp at hc
    · simp [candOpt, hx] at h
      rw [h] at hc
      simp at hc

theorem amtTail_chars (b : Bool) (l am : List Char) (h : amtTail b l = some am) :
    ∀ c ∈ am, amtGrpChar c = true := by
  unfold amtTail at h
  refine findSome?_prop (fun x => ∀ c ∈ x, amtGrpChar c = true) _ _ ?_ am h
  intro p8 _ am8 h8
  refine findSome?_prop (fun x => ∀ c ∈ x, amtGrpChar c = true) _ _ ?_ am8 h8
  intro p9 _ am9 h9
  refine findSome?_prop (fun x => ∀ c ∈ x, amtGrpChar c = true) _ _ ?_ am9 h9
  intro p10 h10m am10 h10
  refine findSome?_prop (fun x => ∀ c ∈ x, amtGrpChar c = true) _ _ ?_ am10 h10
  intro p11 h11m am11 h11
  refine findSome?_prop (fun x => ∀ c ∈ x, amtGrpChar c = true) _ _ ?_ am11 h11
  intro p12 h12m am12 h12
  split at h12
  · cases h12
    intro c hc
    rcases List.mem_append.mp hc with hc1 | hcr
    · rcases List.mem_append.mp hc1 with hc2 | hc3
      · exact candAmtPlus_mem _ _ h10m c hc2
      · have := candOpt_mem '.' _ _ h11m c hc3
        rw [this, amtGrpChar]
        simp
    · exact candUpTo2_mem _ _ h12m c hcr
  · exact absurd h12 (by simp)

theorem descAmt_chars (b : Bool) (l : List Char) (r : List Char × List Char)
    (h : descAmt b l = some r) : ∀ c ∈ r.2, amtGrpChar c = true := by
  unfold descAmt at h
  refine findSome?_prop (fun x => ∀ c ∈ x.2, amtGrpChar c = true) _ _ ?_ r h
  intro p7 _ r7 h7
  obtain ⟨am, ham, heq⟩ := Option.map_eq_some'.mp h7
  rw [← heq]
  exact amtTail_chars b _ am ham

theorem p1From_chars (l : List Char) (r : List Char × List Char × List Char)
    (h : p1From l = some r) : ∀ c ∈ r.2.2, amtGrpChar c = true := by
  unfold p1From at h
  refine findSome?_prop (fun x => ∀ c ∈ x.2.2, amtGrpChar c = true) _ _ ?_ r h
  intro p1 _ r1 h1
  refine findSome?_prop (fun x => ∀ c ∈ x.2.2, amtGrpChar c = true) _ _ ?_ r1 h1
  intro p2 _ r2 h2
  refine findSome?_prop (fun x => ∀ c ∈ x.2.2, amtGrpChar c = true) _ _ ?_ r2 h2
  intro p3 _ r3 h3
  refine findSome?_prop (fun x => ∀ c ∈ x.2.2, amtGrpChar c = true) _ _ ?_ r3 h3
  intro p4 _ r4 h4
  refine findSome?_prop (fun x => ∀ c ∈ x.2.2, amtGrpChar c = true) _ _ ?_ r4 h4
  intro p5 _ r5 h5
  obtain ⟨da, hda, heq⟩ := Option.map_eq_some'.mp h5
  rw [← heq]
  exact descAmt_chars true _ da hda

theorem p2From_chars (l : List Char) (r : List Char × List Char × List Char)
    (h : p2From l = some r) : ∀ c ∈ r.2.2, amtGrpChar c = true := by
  unfold p2From at h
  refine findSome?_prop (fun x => ∀ c ∈ x.2.2, amtGrpChar c = true) _ _ ?_ r h
  intro p1 _ r1 h1
  refine findSome?_prop (fun x => ∀ c ∈ x.2.2, amtGrpChar c = true) _ _ ?_ r1 h1
  intro p2 _ r2 h2
  refine findSome?_prop (fun x => ∀ c ∈ x.2.2, amtGrpChar c = true) _ _ ?_ r2 h2
  intro p3 _ r3 h3
  obtain ⟨da, hda, heq⟩ := Option.map_eq_some'.mp h3
  rw [← heq]
  exact descAmt_chars true _ da hda

theorem p3From_chars (l : List Char) (r : List Char × List Char × List Char)
    (h : p3From l = some r) : ∀ c ∈ r.2.2, amtGrpChar c = true := by
  unfold p3From at h
  refine findSome?_prop (fun x => ∀ c ∈ x.2.2, amtGrpChar c = true) _ _ ?_ r h
  intro p1 _ r1 h1
  refine findSome?_prop (fun x => ∀ c ∈ x.2.2, amtGrpChar c = true) _ _ ?_ r1 h1
  intro p2 _ r2 h2
  refine findSome?_prop (fun x => ∀ c ∈ x.2.2, amtGrpChar c = true) _ _ ?_ r2 h2
  intro p3 _ r3 h3
  refine findSome?_prop (fun x => ∀ c ∈ x.2.2, amtGrpChar c = true) _ _ ?_ r3 h3
  intro p4 _ r4 h4
  refine findSome?_prop (fun x => ∀ c ∈ x.2.2, amtGrpChar c = true) _ _ ?_ r4 h4
  intro p5 _ r5 h5
  obtain ⟨da, hda, heq⟩ := Option.map_eq_some'.mp h5
  rw [← heq]
  exact descAmt_chars false _ da hda

theorem amtAt_chars (l : List Char) (r : List Char × List Char × List Char)
    (h : amtAt l = some r) : ∀ c ∈ r.2.1, amtGrpChar c = true := by
  unfold amtAt at h
  refine findSome?_prop (fun x => ∀ c ∈ x.2.1, amtGrpChar c = true) _ _ ?_ r h
  intro p9 _ r9 h9
  refine findSome?_prop (fun x => ∀ c ∈ x.2.1, amtGrpChar c = true) _ _ ?_ r9 h9
  intro p10 h10m r10 h10
  refine findSome?_prop (fun x => ∀ c ∈ x.2.1, amtGrpChar c = true) _ _ ?_ r10 h10
  intro p11 h11m r11 h11
  refine findSome?_prop (fun x => ∀ c ∈ x.2.1, amtGrpChar c = true) _ _ ?_ r11 h11
  intro p12 h12m r12 h12
  cases h12
  intro c hc
  rcases List.mem_append.mp hc with hc1 | hcr
  · rcases List.mem_append.mp hc1 with hc2 | hc3
    · exact candAmtPlus_mem _ _ h10m c hc2
    · have := candOpt_mem '.' _ _ h11m c hc3
      rw [this, amtGrpChar]
      simp
  · exact candUpTo2_mem _ _ h12m c hcr

theorem allAmtAux_chars :
    ∀ (fuel : ℕ) (l : List Char) (p : List Char × List Char),
      p ∈ allAmtAux fuel l → ∀ c ∈ p.2, amtGrpChar c = true := by
  intro fuel
  induction fuel with
  | zero => intro l p hp; simp [allAmtAux] at hp
  | succ n ih =>
    intro l p hp
    cases l with
    | nil => simp [allAmtAux] at hp
    | cons c t =>
      rw [allAmtAux] at hp
      cases ha : amtAt (c :: t) with
      | some r =>
        rw [ha] at hp
        rcases List.mem_cons.mp hp with h1 | h1
        · intro x hx
          rw [h1] at hx
          exact amtAt_chars _ _ ha x hx
        · exact ih _ p h1
      | none =>
        rw [ha] at hp
        exact ih t p hp

theorem getLast?_mem {α : Type} (l : List α) (a : α) (h : l.getLast? = some a) : a ∈ l := by
  cases l with
  | nil => simp at h
  | cons x t =>
    rw [List.getLast?_eq_getLast _ (by simp)] at h
    cases h
    exact List.getLast_mem _

theorem signNeg_of_chars (l : List Char) (h : ∀ c ∈ l, amtGrpChar c = true) :
    signNeg l = false := by
  cases l with
  | nil => rfl
  | cons c t =>
    have hc := h c (List.mem_cons_self c t)
    rw [signNeg]
    by_cases hm : c = '-'
    · rw [hm, amtGrpChar] at hc
      exact absurd hc (by decide)
    · simp [hm]

theorem parseFloatQ_filter_nonneg (am : List Char) (p : Char → Bool)
    (h : ∀ c ∈ am, amtGrpChar c = true) (a : ℚ)
    (hp : parseFloatQ (am.filter p) = some a) : 0 ≤ a := by
  refine parseFloatQ_nonneg _ _ hp ?_
  refine signNeg_of_chars _ ?_
  intro c hc
  exact h c (List.mem_filter.mp hc).1

theorem parseAmount_amtGrp_nonneg (am : List Char) (h : ∀ c ∈ am, amtGrpChar c = true)
    (a : ℚ) (hp : parseAmount (String.mk am) = some a) : 0 ≤ a := by
  rw [parseAmount] at hp
  have hl : (String.mk am).toList = am := rfl
  rw [hl, parseAmountL, parseAmountC] at hp
  have hnp : ¬(((stripMoney am).contains '(' && (stripMoney am).contains ')') = true) := by
    intro hcontra
    have h1 : (stripMoney am).contains '(' = true := (Bool.and_eq_true_iff.mp hcontra).1
    have h2 : '(' ∈ stripMoney am := by
      simpa using h1
    have h3 : '(' ∈ am := (List.mem_filter.mp h2).1
    have := h _ h3
    rw [amtGrpChar] at this
    exact absurd this (by decide)
  rw [if_neg hnp] at hp
  exact parseFloatQ_filter_nonneg am _ h a hp

theorem pdfLineTx_always_neg (cy : ℤ) (fb : String → Option JsDate)
    (ds de am : List Char) (tx : PTx) (h : pdfLineTx cy fb ds de am = some tx)
    (hch : ∀ c ∈ am, amtGrpChar c = true) :
    ∃ q, 0 < q ∧ tx.amount = some (-q) := by
  unfold pdfLineTx at h
  split at h
  · exact absurd h (by simp)
  next date hdate =>
    split at h
    · exact absurd h (by simp)
    next a ha =>
      split at h
      · exact absurd h (by simp)
      next haz =>
        split at h
        · exact absurd h (by simp)
        next hdesc =>
          cases h
          have hnn : 0 ≤ a := parseAmount_amtGrp_nonneg am hch a ha
          have hpos : 0 < a := lt_of_le_of_ne hnn (fun heq => haz heq.symm)
          refine ⟨a, hpos, ?_⟩
          simp only [if_pos hpos]

/-- C6 counterexample: the standalone parser part_001, also cited by the
claim, ignores the payment and credit keywords: a line containing
"PAYMENT" still gets its extracted magnitude negated. -/
theorem pdfLine_keyword_counterexample :
    (parsePDFLine1 2024 isoFallback "07/28/2024 PAYMENT THANK YOU $100.00").map PTx.amount
      = some (some (-100 : ℚ))
    ∧ pcKw "07/28/2024 PAYMENT THANK YOU $100.00" = true := by
  exact ⟨by decide, by decide⟩

/-- C6 amended: for `StatementParser.parsePDFLine` the sign of every
successfully built row is inferred from keyword presence (positive exactly
when the lowercased line contains "payment" or "credit", otherwise minus
the extracted magnitude); the standalone parser part_001 always negates
the extracted positive magnitude regardless of keywords; both parsers give
amount -5.75 on the Starbucks example line. -/
theorem pdfLine_sign_spec :
    (∀ cy line tx, parsePDFLine2 cy line = some tx →
      ∃ q, 0 < q ∧ tx.amount = some (if pcKw line then q else -q))
    ∧ (∀ cy fb line tx, parsePDFLine1 cy fb line = some tx →
        ∃ q, 0 < q ∧ tx.amount = some (-q))
    ∧ (parsePDFLine2 2024 "07/28/2024 STARBUCKS #4521 COFFEE $5.75").map PTx.amount
        = some (some (-(575 / 100 : ℚ)))
    ∧ (parsePDFLine1 2024 isoFallback "07/28/2024 STARBUCKS #4521 COFFEE $5.75").map PTx.amount
        = some (some (-(575 / 100 : ℚ))) := by
  refine ⟨?_, ?_, ?_, ?_⟩
  · intro cy line tx h
    unfold parsePDFLine2 at h
    split at h
    · exact absurd h (by simp)
    next ds hds =>
      split at h
      · exact absurd h (by simp)
      next date hdate =>
        split at h
        · exact absurd h (by simp)
        next fg hlast =>
          split at h
          · exact absurd h (by simp)
          next a ha =>
            split at h
            · exact absurd h (by simp)
            next haz =>
              split at h
              · exact absurd h (by simp)
              next hdesc =>
                cases h
                have hmem : fg ∈ allAmtMatches line.toList := getLast?_mem _ _ hlast
                have hch : ∀ c ∈ fg.2, amtGrpChar c = true :=
                  allAmtAux_chars _ _ fg hmem
                have hnn : 0 ≤ a := by
                  rw [parseAmount2] at ha
                  exact parseFloatQ_filter_nonneg _ _ hch a ha
                have hpos : 0 < a := lt_of_le_of_ne hnn (fun hq => haz hq.symm)
                exact ⟨a, hpos, rfl⟩
  · intro cy fb line tx h
    unfold parsePDFLine1 at h
    rcases orO_eq_some _ _ _ h with h1 | ⟨-, h1⟩
    · split at h1
      next r hr =>
        exact pdfLineTx_always_neg cy fb r.1 r.2.1 r.2.2 tx h1
          (searchLeft_prop (fun x => ∀ c ∈ x.2.2, amtGrpChar c = true) p1From
            (fun l x hx => p1From_chars l x hx) _ r hr)
      next => exact absurd h1 (by simp)
    · rcases orO_eq_some _ _ _ h1 with h2 | ⟨-, h2⟩
      · split at h2
        next r hr =>
          exact pdfLineTx_always_neg cy fb r.1 r.2.1 r.2.2 tx h2
            (searchLeft_prop (fun x => ∀ c ∈ x.2.2, amtGrpChar c = true) p2From
              (fun l x hx => p2From_chars l x hx) _ r hr)
        next => exact absurd h2 (by simp)
      · split at h2
        next r hr =>
          exact pdfLineTx_always_neg cy fb r.1 r.2.1 r.2.2 tx h2
            (searchLeft_prop (fun x => ∀ c ∈ x.2.2, amtGrpChar c = true) p3From
              (fun l x hx => p3From_chars l x hx) _ r hr)
        next => exact absurd h2 (by simp)
  · rw [show (-(575 / 100 : ℚ)) = -(mkRat 575 100) from by rw [Rat.mkRat_eq_div]; norm_num]
    decide
  · rw [show (-(575 / 100 : ℚ)) = -(mkRat 575 100) from by rw [Rat.mkRat_eq_div]; norm_num]
    decide

/-- Witness for C6 amended: the two universal conjuncts applied at the
Starbucks line and at a payment line. -/
theorem pdfLine_sign_spec_witness :
    (∃ q, 0 < q ∧ (some (100 : ℚ) : Option ℚ) = some (if pcKw "07/28/2024 PAYMENT THANK YOU $100.00" then q else -q))
    ∧ (∃ q, 0 < q ∧ (some (-100 : ℚ) : Option ℚ) = some (-q)) := by
  constructor
  · have h := pdfLine_sign_spec.1 2024 "07/28/2024 PAYMENT THANK YOU $100.00"
      ⟨⟨2024, 7, 28⟩, "PAYMENT THANK YOU", some (100 : ℚ), "PAYMENT THANK YOU"⟩ (by decide)
    exact h
  · have h := pdfLine_sign_spec.2.1 2024 isoFallback "07/28/2024 PAYMENT THANK YOU $100.00"
      ⟨⟨2024, 7, 28⟩, "PAYMENT THANK YOU", some (-100 : ℚ), "PAYMENT THANK YOU"⟩ (by decide)
    exact h

/-! Upload endpoint: format detection, duplicate-checked storage loop,
file-record status and temp-file cleanup (working-server.ts lines 589 to
742). A stored transaction row keeps the columns the claims touch
(description, amount, date, source). The duplicate query at lines 651 to
655 compares description, amount and the ISO date string: every date this
pipeline stores is a plain midnight date, so ISO-string equality is
exactly `JsDate` equality. Two models of the loop are given: `storeLoop`
over transactions with plain numeric amounts, for which every insert
succeeds, and `storeLoopN` over full JS amounts under the dev sqlite3
backend (working-server.ts line 5 imports sqlite3, line 19 opens the
database and line 35 declares `amount REAL NOT NULL`), where a NaN amount
binds as NULL so its insert violates the constraint and is swallowed by
the per-row try/catch. -/

/-- A row of the `transactions` table (the columns the claims touch). -/
structure StoredRow where
  description : String
  amount : ℚ
  date : JsDate
  sourceId : String
deriving DecidableEq

/-- A parsed transaction entering the storage loop. -/
structure UTx where
  description : String
  amount : ℚ
  date : JsDate
deriving DecidableEq

/-- Models the WHERE clause of the duplicate query:
`description = ? AND amount = ? AND date = ?` — note it carries NO source
filter. -/
def keyMatch (r : StoredRow) (t : UTx) : Bool :=
  r.description == t.description && r.amount == t.amount && r.date == t.date

/-- Models the duplicate check `COUNT(*) > 0` over the whole transactions
table (working-server.ts lines 650 to 655). -/
def findDuplicate (stored : List StoredRow) (t : UTx) : Bool :=
  stored.any (fun r => keyMatch r t)

/-- Modelled from the spec: the scoped duplicate check the spec describes,
`findDuplicate(description, amount, date, scope)`, matching only rows of
the given source; stated for comparison with the code's unscoped check. -/
def specFindDuplicate (scope : String) (stored : List StoredRow) (t : UTx) : Bool :=
  stored.any (fun r => keyMatch r t && r.sourceId == scope)

/-- Models the storage loop (working-server.ts lines 646 to 684): for each
transaction, skip and count a duplicate, otherwise insert a row for the
upload's source; returns (table, storedCount, duplicateCount). -/
def storeLoop (src : String) : List StoredRow → List UTx → List StoredRow × ℕ × ℕ
  | stored, [] => (stored, 0, 0)
  | stored, t :: ts =>
    if findDuplicate stored t then
      ((storeLoop src stored ts).1, (storeLoop src stored ts).2.1,
        (storeLoop src stored ts).2.2 + 1)
    else
      ((storeLoop src (stored ++ [⟨t.description, t.amount, t.date, src⟩]) ts).1,
        (storeLoop src (stored ++ [⟨t.description, t.amount, t.date, src⟩]) ts).2.1 + 1,
        (storeLoop src (stored ++ [⟨t.description, t.amount, t.date, src⟩]) ts).2.2)

theorem storeLoop_subset (src : String) :
    ∀ (ts : List UTx) (stored : List StoredRow) (r : StoredRow),
      r ∈ stored → r ∈ (storeLoop src stored ts).1 := by
  intro ts
  induction ts with
  | nil => intro stored r hr; exact hr
  | cons t ts ih =>
    intro stored r hr
    rw [storeLoop]
    split
    · exact ih stored r hr
    · exact ih _ r (List.mem_append_left _ hr)

theorem storeLoop_all_present (src : String) :
    ∀ (ts : List UTx) (stored : List StoredRow) (t : UTx), t ∈ ts →
      ∃ r ∈ (storeLoop src stored ts).1, keyMatch r t = true := by
  intro ts
  induction ts with
  | nil => intro stored t ht; simp at ht
  | cons u ts ih =>
    intro stored t ht
    rw [storeLoop]
    rcases List.mem_cons.mp ht with rfl | hmem
    · split
      next hdup =>
        obtain ⟨r, hr, hk⟩ := List.any_eq_true.mp hdup
        exact ⟨r, storeLoop_subset src ts stored r hr, hk⟩
      next =>
        refine ⟨⟨t.description, t.amount, t.date, src⟩, ?_, ?_⟩
        · exact storeLoop_subset src ts _ _ (List.mem_append_right _ (by simp))
        · simp [keyMatch]
    · split
      · exact ih stored t hmem
      · exact ih _ t hmem

theorem storeLoop_all_dup (src : String) :
    ∀ (ts : List UTx) (stored : List StoredRow),
      (∀ t ∈ ts, findDuplicate stored t = true) →
      storeLoop src stored ts = (stored, 0, ts.length) := by
  intro ts
  induction ts with
  | nil => intro stored _; rfl
  | cons t ts ih =>
    intro stored hall
    rw [storeLoop, if_pos (hall t (List.mem_cons_self t ts)),
      ih stored (fun u hu => hall u (List.mem_cons_of_mem t hu))]
    simp

/-- A parsed transaction entering the storage loop with its full JS
amount, possibly NaN as the header builder can produce. -/
structure NTx where
  description : String
  amount : JsNum
  date : JsDate
deriving DecidableEq

/-- Projection of a built CSV transaction to the storage loop input. -/
def toNTx (tx : CTx) : NTx :=
  ⟨tx.description, tx.amount, tx.date⟩

/-- A row of the transactions table with the amount as bound by the
sqlite3 driver: the schema (working-server.ts line 35) declares
`amount REAL NOT NULL`, and SQLite has no NaN REAL value — a NaN double
binds as NULL — so no stored row ever carries NaN. -/
structure NRow where
  description : String
  amount : JsNum
  date : JsDate
  sourceId : String
deriving DecidableEq

/-- SQL comparison `amount = ?` under sqlite3 binding: a NaN parameter
binds as NULL and `= NULL` matches nothing, a NaN on the stored side
(never actually stored) likewise matches nothing; otherwise plain value
equality. -/
def sqlAmtEq (stored param : JsNum) : Bool :=
  match param, stored with
  | JsNum.nan, _ => false
  | _, JsNum.nan => false
  | p, s => p == s

/-- The duplicate-query WHERE clause over full JS amounts. -/
def keyMatchN (r : NRow) (t : NTx) : Bool :=
  r.description == t.description && sqlAmtEq r.amount t.amount && r.date == t.date

/-- Duplicate check `COUNT(*) > 0` over the whole table, with SQL amount
comparison. -/
def findDuplicateN (stored : List NRow) (t : NTx) : Bool :=
  stored.any (fun r => keyMatchN r t)

/-- Whether the INSERT succeeds: binding a NaN amount produces NULL,
which violates the NOT NULL constraint and makes the insert throw; the
per-row catch (working-server.ts lines 681 to 683) swallows the error
without incrementing either counter. -/
def insertOk (t : NTx) : Bool :=
  !(t.amount == JsNum.nan)

/-- Models the storage loop (working-server.ts lines 646 to 684)
INCLUDING the per-row try/catch around the insert: a duplicate is skipped
and counted, an insertable row is stored and counted, and a row whose
insert fails counts as neither; returns (table, storedCount,
duplicateCount). -/
def storeLoopN (src : String) : List NRow → List NTx → List NRow × ℕ × ℕ
  | stored, [] => (stored, 0, 0)
  | stored, t :: ts =>
    if findDuplicateN stored t then
      ((storeLoopN src stored ts).1, (storeLoopN src stored ts).2.1,
        (storeLoopN src stored ts).2.2 + 1)
    else if insertOk t then
      ((storeLoopN src (stored ++ [⟨t.description, t.amount, t.date, src⟩]) ts).1,
        (storeLoopN src (stored ++ [⟨t.description, t.amount, t.date, src⟩]) ts).2.1 + 1,
        (storeLoopN src (stored ++ [⟨t.description, t.amount, t.date, src⟩]) ts).2.2)
    else storeLoopN src stored ts

theorem sqlAmtEq_refl (a : JsNum) (h : a ≠ JsNum.nan) : sqlAmtEq a a = true := by
  cases a with
  | nan => exact absurd rfl h
  | inf b => simp [sqlAmtEq]
  | fin q => simp [sqlAmtEq]

theorem sqlAmtEq_nan_param (x : JsNum) : sqlAmtEq x JsNum.nan = false := by
  cases x <;> rfl

theorem storeLoopN_subset (src : String) :
    ∀ (ts : List NTx) (stored : List NRow) (r : NRow),
      r ∈ stored → r ∈ (storeLoopN src stored ts).1 := by
  intro ts
  induction ts with
  | nil => intro stored r hr; exact hr
  | cons t ts ih =>
    intro stored r hr
    rw [storeLoopN]
    split
    · exact ih stored r hr
    · split
      · exact ih _ r (List.mem_append_left _ hr)
      · exact ih stored r hr

theorem storeLoopN_present (src : String) :
    ∀ (ts : List NTx) (stored : List NRow) (t : NTx), t ∈ ts →
      t.amount ≠ JsNum.nan →
      ∃ r ∈ (storeLoopN src stored ts).1, keyMatchN r t = true := by
  intro ts
  induction ts with
  | nil => intro stored t ht; simp at ht
  | cons u ts ih =>
    intro stored t ht hnan
    rw [storeLoopN]
    rcases List.mem_cons.mp ht with rfl | hmem
    · split
      next hdup =>
        obtain ⟨r, hr, hk⟩ := List.any_eq_true.mp hdup
        exact ⟨r, storeLoopN_subset src ts stored r hr, hk⟩
      next =>
        have hok : insertOk t = true := by
          rw [insertOk]
          cases hb : t.amount == JsNum.nan with
          | false => rfl
          | true => exact absurd (eq_of_beq hb) hnan
        rw [if_pos hok]
        refine ⟨⟨t.description, t.amount, t.date, src⟩, ?_, ?_⟩
        · exact storeLoopN_subset src ts _ _ (List.mem_append_right _ (by simp))
        · rw [keyMatchN]
          simp [sqlAmtEq_refl t.amount hnan]
    · split
      next => exact ih stored t hmem hnan
      next =>
        split
        · exact ih _ t hmem hnan
        · exact ih stored t hmem hnan

theorem findDuplicateN_nan (stored : List NRow) (t : NTx)
    (h : t.amount = JsNum.nan) : findDuplicateN stored t = false := by
  cases hany : findDuplicateN stored t with
  | false => rfl
  | true =>
    obtain ⟨r, hr, hk⟩ := List.any_eq_true.mp hany
    rw [keyMatchN, h, sqlAmtEq_nan_param] at hk
    simp at hk

theorem storeLoopN_all_dup (src : String) :
    ∀ (ts : List NTx) (stored : List NRow),
      (∀ t ∈ ts, t.amount ≠ JsNum.nan → findDuplicateN stored t = true) →
      storeLoopN src stored ts =
        (stored, 0, (ts.filter (fun t => !(t.amount == JsNum.nan))).length) := by
  intro ts
  induction ts with
  | nil => intro stored _; rfl
  | cons t ts ih =>
    intro stored hall
    by_cases hnan : t.amount = JsNum.nan
    · have hdup : findDuplicateN stored t = false := findDuplicateN_nan stored t hnan
      have hok : insertOk t = false := by rw [insertOk, hnan]; simp
      rw [storeLoopN, if_neg (by rw [hdup]; exact Bool.false_ne_true),
        if_neg (by rw [hok]; exact Bool.false_ne_true),
        ih stored (fun u hu hn => hall u (List.mem_cons_of_mem t hu) hn)]
      have hfil : (t :: ts).filter (fun u => !(u.amount == JsNum.nan))
          = ts.filter (fun u => !(u.amount == JsNum.nan)) := by
        rw [List.filter_cons, show (!(t.amount == JsNum.nan)) = false from by rw [hnan]; simp]
        simp
      rw [hfil]
    · have hdup : findDuplicateN stored t = true := hall t (List.mem_cons_self t ts) hnan
      rw [storeLoopN, if_pos hdup,
        ih stored (fun u hu hn => hall u (List.mem_cons_of_mem t hu) hn)]
      have hfil : (t :: ts).filter (fun u => !(u.amount == JsNum.nan))
          = t :: ts.filter (fun u => !(u.amount == JsNum.nan)) := by
        rw [List.filter_cons, show (!(t.amount == JsNum.nan)) = true from by
          cases hb : t.amount == JsNum.nan with
          | false => rfl
          | true => exact absurd (eq_of_beq hb) hnan]
        simp
      rw [hfil]
      simp

/-- C1 amended: re-running the storage loop on the identical extraction
over the table the first run produced re-stores nothing and counts as
duplicates exactly the transactions whose amount is not NaN. A NaN-amount
transaction, which the header builder can produce, fails its insert on
EVERY run — NaN binds as NULL into the `amount REAL NOT NULL` column — and
is never reported as a duplicate, because the `amount = ?` comparison
with a NULL parameter matches no row; so on a re-run duplicateCount falls
short of totalExtracted exactly by the number of NaN rows, and the
claimed equality holds only when no NaN row is present. -/
theorem upload_idempotent :
    ∀ (src : String) (stored : List NRow) (txs : List NTx),
      storeLoopN src (storeLoopN src stored txs).1 txs =
        ((storeLoopN src stored txs).1, 0,
          (txs.filter (fun t => !(t.amount == JsNum.nan))).length) := by
  intro src stored txs
  apply storeLoopN_all_dup
  intro t ht hnan
  obtain ⟨r, hr, hk⟩ := storeLoopN_present src txs stored t ht hnan
  exact List.any_eq_true.mpr ⟨r, hr, hk⟩

/-- C1 counterexample to the idempotence claim: an extraction containing
a NaN-amount row — produced by the header builder from an unparseable
Debit cell — plus one normal row. The first run stores only the normal
row (the NaN insert fails on the NOT NULL constraint, caught row-locally);
re-running the identical extraction yields duplicateCount 1, strictly
less than totalExtracted = 2, because the NaN row again counts as neither
stored nor duplicate. -/
theorem upload_idempotent_counterexample :
    (∃ tx, buildRowWH 2024 isoFallback
        [("Date", "07/28/2024"), ("Name", "FOO"), ("Debit", "abc")] = some tx
      ∧ (toNTx tx).amount = JsNum.nan)
    ∧ storeLoopN "src" []
        [⟨"FOO", JsNum.nan, ⟨2024, 7, 28⟩⟩, ⟨"BAR", JsNum.fin (-5), ⟨2024, 7, 28⟩⟩]
      = ([⟨"BAR", JsNum.fin (-5), ⟨2024, 7, 28⟩, "src"⟩], 1, 0)
    ∧ storeLoopN "src" [⟨"BAR", JsNum.fin (-5), ⟨2024, 7, 28⟩, "src"⟩]
        [⟨"FOO", JsNum.nan, ⟨2024, 7, 28⟩⟩, ⟨"BAR", JsNum.fin (-5), ⟨2024, 7, 28⟩⟩]
      = ([⟨"BAR", JsNum.fin (-5), ⟨2024, 7, 28⟩, "src"⟩], 0, 1)
    ∧ (1 : ℕ) < 2 := by
  exact ⟨⟨⟨⟨2024, 7, 28⟩, "FOO", JsNum.nan, "FOO"⟩, by decide, rfl⟩,
    by decide, by decide, by norm_num⟩

/-- Concrete stored row used by the C2 counterexample: a transaction
already stored for source "sourceA". -/
def dupRowA : StoredRow :=
  ⟨"COFFEE", -5, ⟨2024, 7, 28⟩, "sourceA"⟩

/-- Concrete incoming transaction, uploaded into source "sourceB". -/
def dupTxB : UTx :=
  ⟨"COFFEE", -5, ⟨2024, 7, 28⟩⟩

/-- C2 counterexample: the duplicate check matches across ALL sources: a
key stored under "sourceA" blocks the same transaction from being inserted
into "sourceB", although no row within the "sourceB" scope matches, so the
check is NOT "within the relevant source/account scope". -/
theorem dup_check_ignores_scope_counterexample :
    findDuplicate [dupRowA] dupTxB = true
    ∧ specFindDuplicate "sourceB" [dupRowA] dupTxB = false
    ∧ storeLoop "sourceB" [dupRowA] [dupTxB] = ([dupRowA], 0, 1) := by
  exact ⟨by decide, by decide, by decide⟩

/-- C2 amended: before inserting a built transaction the loop queries the
WHOLE transactions table (no source scope) for a row with exactly equal
(description, amount, date) — date equality being calendar-day equality
for the midnight dates this pipeline stores; when such a row exists
anywhere, the transaction is skipped and the duplicate counter is
incremented; otherwise it is inserted and the stored counter is
incremented; no error is raised either way. -/
theorem dup_check_spec :
    (∀ stored t, findDuplicate stored t = true ↔
      ∃ r ∈ stored, r.description = t.description ∧ r.amount = t.amount ∧ r.date = t.date)
    ∧ (∀ src stored t ts, findDuplicate stored t = true →
        storeLoop src stored (t :: ts) =
          ((storeLoop src stored ts).1, (storeLoop src stored ts).2.1,
            (storeLoop src stored ts).2.2 + 1))
    ∧ (∀ src stored t ts, findDuplicate stored t = false →
        storeLoop src stored (t :: ts) =
          ((storeLoop src (stored ++ [⟨t.description, t.amount, t.date, src⟩]) ts).1,
            (storeLoop src (stored ++ [⟨t.description, t.amount, t.date, src⟩]) ts).2.1 + 1,
            (storeLoop src (stored ++ [⟨t.description, t.amount, t.date, src⟩]) ts).2.2)) := by
  refine ⟨?_, ?_, ?_⟩
  · intro stored t
    rw [findDuplicate, List.any_eq_true]
    constructor
    · rintro ⟨r, hr, hk⟩
      rw [keyMatch] at hk
      refine ⟨r, hr, ?_⟩
      simp only [Bool.and_eq_true, beq_iff_eq] at hk
      exact ⟨hk.1.1, hk.1.2, hk.2⟩
    · rintro ⟨r, hr, h1, h2, h3⟩
      refine ⟨r, hr, ?_⟩
      rw [keyMatch]
      simp [h1, h2, h3]
  · intro src stored t ts h
    rw [storeLoop, if_pos h]
  · intro src stored t ts h
    rw [storeLoop, if_neg (by rw [h]; exact Bool.false_ne_true)]

/-- Witness for C2 amended: the three conjuncts at concrete data. -/
theorem dup_check_spec_witness :
    (∃ r ∈ [dupRowA], r.description = dupTxB.description ∧ r.amount = dupTxB.amount
      ∧ r.date = dupTxB.date)
    ∧ storeLoop "sourceB" [dupRowA] [dupTxB] =
        ((storeLoop "sourceB" [dupRowA] []).1, (storeLoop "sourceB" [dupRowA] []).2.1,
          (storeLoop "sourceB" [dupRowA] []).2.2 + 1)
    ∧ storeLoop "sourceB" [] [dupTxB] =
        ((storeLoop "sourceB" [⟨dupTxB.description, dupTxB.amount, dupTxB.date, "sourceB"⟩] []).1,
          (storeLoop "sourceB" [⟨dupTxB.description, dupTxB.amount, dupTxB.date, "sourceB"⟩] []).2.1 + 1,
          (storeLoop "sourceB" [⟨dupTxB.description, dupTxB.amount, dupTxB.date, "sourceB"⟩] []).2.2) := by
  refine ⟨?_, ?_, ?_⟩
  · exact (dup_check_spec.1 [dupRowA] dupTxB).mp (by decide)
  · exact dup_check_spec.2.1 "sourceB" [dupRowA] dupTxB [] (by decide)
  · exact dup_check_spec.2.2 "sourceB" [] dupTxB [] (by decide)

/-- Routing decision of the upload endpoint. -/
inductive Route
  | delim
  | lines
  | unsupported
deriving DecidableEq

/-- Models `fileBuffer.toString('utf8', 0, 4) === '%PDF'`. -/
def hasPdfMagic (content : String) : Bool :=
  leadsWith ("%PDF".toList) content.toList

/-- Models `isLikelyCsv`: lower-cased name ends in .csv, or a comma occurs
in the first 100 bytes. -/
def csvLikely (origName content : String) : Bool :=
  endsL (lowerStr origName) ".csv" || (content.toList.take 100).contains ','

/-- Models the routing at working-server.ts lines 624 to 635: the CSV
check runs FIRST; the PDF header is consulted only when the CSV check
fails. -/
def detectFormat (origName content : String) : Route :=
  if csvLikely origName content || endsL (lowerStr origName) ".csv" then Route.delim
  else if hasPdfMagic content || endsL (lowerStr origName) ".pdf" then Route.lines
  else Route.unsupported

/-- C8 counterexample: a file carrying the PDF magic header whose first
bytes contain a comma is routed to the delimited (CSV) strategy, so the
PDF header does NOT take precedence. -/
theorem pdf_routed_to_csv_counterexample :
    hasPdfMagic "%PDF-1.4 obj , stream" = true
    ∧ detectFormat "statement.pdf" "%PDF-1.4 obj , stream" = Route.delim := by
  exact ⟨by decide, by decide⟩

/-- C8 amended: detection inspects content, but the delimited check takes
precedence: a file whose lower-cased name ends in .csv or whose first 100
bytes contain a comma is routed to the delimited strategy even when it
has the PDF magic; only otherwise is the PDF magic (or a .pdf name)
consulted for the line-based strategy; everything else is rejected as
unsupported. -/
theorem detect_format_spec (name content : String) :
    (detectFormat name content = Route.delim ↔ csvLikely name content = true)
    ∧ (detectFormat name content = Route.lines ↔
        (csvLikely name content = false
          ∧ (hasPdfMagic content || endsL (lowerStr name) ".pdf") = true))
    ∧ (detectFormat name content = Route.unsupported ↔
        (csvLikely name content = false ∧ hasPdfMagic content = false
          ∧ endsL (lowerStr name) ".pdf" = false)) := by
  cases h1 : endsL (lowerStr name) ".csv" <;>
    cases h3 : hasPdfMagic content <;>
    cases h4 : endsL (lowerStr name) ".pdf" <;>
    by_cases h2 : ',' ∈ content.data.take 100 <;>
    simp [detectFormat, csvLikely, h1, h2, h3, h4, String.toList]

/-- Witness for C8 amended: the route equivalences applied at concrete
files of each kind. -/
theorem detect_format_spec_witness :
    detectFormat "data.csv" "a,b" = Route.delim
    ∧ detectFormat "statement.pdf" "%PDF-1.4" = Route.lines
    ∧ detectFormat "notes.txt" "hello" = Route.unsupported := by
  refine ⟨?_, ?_, ?_⟩
  · exact (detect_format_spec "data.csv" "a,b").1.mpr (by decide)
  · exact (detect_format_spec "statement.pdf" "%PDF-1.4").2.1.mpr (by decide)
  · exact (detect_format_spec "notes.txt" "hello").2.2.mpr (by decide)

/-- Status of the uploaded-file record. -/
inductive FileStatus
  | processing
  | completed
  | failed
deriving DecidableEq

/-- Outcome of one upload request: record status, whether the temp file
was unlinked, whether the response was a success, and the storage-loop
results. -/
structure UploadResult where
  status : FileStatus
  tempDeleted : Bool
  httpOk : Bool
  stored : List StoredRow
  processedCount : ℕ
  duplicateCount : ℕ
deriving DecidableEq

/-- Models the upload handler after the file record is created with
status processing (working-server.ts lines 589 to 742): format detection,
extraction (the transactions each selected parser extracts are passed in;
the parsers are modelled separately above), the storage loop, the
completed-status update and the temp-file unlink. The early error returns
at lines 634 and 638 leave the record in processing and do not unlink the
temp file; only the success path (lines 688 to 704) marks completed and
unlinks. Thrown exceptions (the catch at lines 722 to 741, which persists
status failed with a message but also never unlinks) are outside this
pure model. -/
def uploadRun (origName content : String) (csvTxs pdfTxs : List UTx)
    (src : String) (stored : List StoredRow) : UploadResult :=
  match detectFormat origName content with
  | Route.unsupported => ⟨FileStatus.processing, false, false, stored, 0, 0⟩
  | Route.delim =>
    if csvTxs.isEmpty then ⟨FileStatus.processing, false, false, stored, 0, 0⟩
    else
      ⟨FileStatus.completed, true, true, (storeLoop src stored csvTxs).1,
        (storeLoop src stored csvTxs).2.1, (storeLoop src stored csvTxs).2.2⟩
  | Route.lines =>
    if pdfTxs.isEmpty then ⟨FileStatus.processing, false, false, stored, 0, 0⟩
    else
      ⟨FileStatus.completed, true, true, (storeLoop src stored pdfTxs).1,
        (storeLoop src stored pdfTxs).2.1, (storeLoop src stored pdfTxs).2.2⟩

/-- C9 counterexample: an unsupported-type upload ends with the file
record still in processing (never failed) and the temp file NOT removed,
contradicting both halves of the claim. -/
theorem failed_upload_counterexample :
    detectFormat "notes.txt" "hello" = Route.unsupported
    ∧ (uploadRun "notes.txt" "hello" [] [] "src" []).status = FileStatus.processing
    ∧ ¬(uploadRun "notes.txt" "hello" [] [] "src" []).status = FileStatus.failed
    ∧ (uploadRun "notes.txt" "hello" [] [] "src" []).tempDeleted = false := by
  exact ⟨by decide, by decide, by decide, by decide⟩

/-- C9 amended: within the handler's non-throwing flow the temp file is
removed exactly on the success path, where the record is marked completed;
unsupported-type and zero-transaction runs return an error leaving the
record in processing (status failed is only ever written by the exception
handler, which does not remove the temp file either). -/
theorem upload_cleanup_spec (name content : String) (csvTxs pdfTxs : List UTx)
    (src : String) (stored : List StoredRow) :
    ((uploadRun name content csvTxs pdfTxs src stored).tempDeleted = true ↔
      (uploadRun name content csvTxs pdfTxs src stored).status = FileStatus.completed)
    ∧ (uploadRun name content csvTxs pdfTxs src stored).status ≠ FileStatus.failed
    ∧ (detectFormat name content = Route.unsupported →
        uploadRun name content csvTxs pdfTxs src stored =
          ⟨FileStatus.processing, false, false, stored, 0, 0⟩)
    ∧ (detectFormat name content = Route.delim → csvTxs ≠ [] →
        (uploadRun name content csvTxs pdfTxs src stored).status = FileStatus.completed
        ∧ (uploadRun name content csvTxs pdfTxs src stored).tempDeleted = true
        ∧ (uploadRun name content csvTxs pdfTxs src stored).processedCount
            = (storeLoop src stored csvTxs).2.1) := by
  unfold uploadRun
  split
  next hd =>
    refine ⟨by simp, by simp, fun _ => rfl, ?_⟩
    intro hdl
    simp [hd] at hdl
  next hd =>
    split
    next hc =>
      have hce : csvTxs = [] := List.isEmpty_iff.mp hc
      refine ⟨by simp, by simp, ?_, ?_⟩
      · intro hu
        simp [hd] at hu
      · intro _ hne
        exact absurd hce hne
    next hc =>
      refine ⟨by simp, by simp, ?_, fun _ _ => ⟨rfl, rfl, rfl⟩⟩
      intro hu
      simp [hd] at hu
  next hd =>
    split
    next hc =>
      refine ⟨by simp, by simp, ?_, ?_⟩
      · intro hu
        simp [hd] at hu
      · intro hdl
        simp [hd] at hdl
    next hc =>
      refine ⟨by simp, by simp, ?_, ?_⟩
      · intro hu
        simp [hd] at hu
      · intro hdl
        simp [hd] at hdl

/-- Witness for C9 amended: the conjuncts applied at a successful CSV
upload and at an unsupported upload. -/
theorem upload_cleanup_spec_witness :
    ((uploadRun "data.csv" "a,b" [dupTxB] [] "src" []).tempDeleted = true ↔
      (uploadRun "data.csv" "a,b" [dupTxB] [] "src" []).status = FileStatus.completed)
    ∧ (uploadRun "data.csv" "a,b" [dupTxB] [] "src" []).status = FileStatus.completed
    ∧ uploadRun "notes.txt" "hello" [] [] "src" [] =
        ⟨FileStatus.processing, false, false, [], 0, 0⟩ := by
  refine ⟨(upload_cleanup_spec "data.csv" "a,b" [dupTxB] [] "src" []).1, ?_, ?_⟩
  · exact ((upload_cleanup_spec "data.csv" "a,b" [dupTxB] [] "src" []).2.2.2
      (by decide) (by simp)).1
  · exact (upload_cleanup_spec "notes.txt" "hello" [] [] "src" []).2.2.1 (by decide)

end TrackMoney
